import Mathlib

/-!
Verification of the KGP-struct topology optimizer (`topology_module/backend.py`,
`topology_module/ui.py`) against its design specification.

Shallow embedding conventions:
* Python floats are idealized as exact rationals (`ℚ`).
* `math.hypot`-based comparisons are expressed through squares: for `c ≥ 0`,
  `hypot x y ≤ c ↔ x² + y² ≤ c²` and `c < hypot x y ↔ c² < x² + y²`, so every
  length/tolerance test of the source appears here in its squared form.
* The external solver (`anastruct`) is an oracle: its per-element result
  dictionaries are an explicit parameter of `run_iteration`, and its per-element
  stiffness registry (`ss.element_map[..].EA/.EI`) is an explicit map `ℕ → ℚ × ℚ`.
* Fallible Python code is embedded in `Except`; code that cannot raise is a
  total function.
-/

attribute [local semireducible] Rat.add Rat.mul Rat.sub Rat.inv Rat.ofScientific

set_option maxRecDepth 40000

namespace KGP

/-! ### SectionPropertyCalculator — `backend.calculate_i_section_properties` (lines 16–28) -/

/-- Error kind named by the design spec for invalid section geometry.  The backend
defines no such exception and contains no `raise` statement; the type is declared
here so that the spec's claimed failure mode can be stated. -/
inductive SectionError where
  | invalidGeometry
deriving DecidableEq

/-- Embedding of `calculate_i_section_properties(B, D, tw, tf)`.  The Python body is
straight-line arithmetic with no validation, so the result is always `.ok`:
`area = 2*B*tf + (D - 2*tf)*tw` and `Ixx = (1/12)*B*D³ − (1/12)*(B−tw)*(D−2*tf)³`. -/
def calculate_i_section_properties (B D tw tf : ℚ) : Except SectionError (ℚ × ℚ) :=
  .ok ((2 * B * tf) + ((D - 2 * tf) * tw),
       (1/12) * (B * D^3) - (1/12) * ((B - tw) * (D - 2*tf)^3))

/-! ### Ground-structure construction — `initialize_structure` steps 2–3 (lines 48–90) -/

abbrev Coord := ℚ × ℚ

/-- Floor of a rational, via `Int.fdiv` (`den` is positive, so this is `⌊q⌋`). -/
def qfloor (q : ℚ) : ℤ := q.num.fdiv (q.den : ℤ)

/-- Python's `round(q, 3)`: round half to even at the third decimal. -/
def round3 (q : ℚ) : ℚ :=
  let s := q * 1000
  let n : ℤ := qfloor s
  let r : ℤ :=
    if s - (n : ℚ) < 1/2 then n
    else if (1/2 : ℚ) < s - (n : ℚ) then n + 1
    else if n % 2 = 0 then n else n + 1
  (r : ℚ) / 1000

/-- Grid generation (`x_divs = 8`, `y_divs = 3`): nodes `(round(i*dx,3), round(j*dy,3))`
for `i = 0..8` (outer loop) and `j = 0..3` (inner loop), in source append order. -/
def genNodes (span height : ℚ) : List Coord :=
  let dx := span / 8
  let dy := height / 3
  (List.range 9).flatMap fun i =>
    (List.range 4).map fun j => (round3 (i * dx), round3 (j * dy))

/-- Squared Euclidean distance; `math.hypot (q.1-p.1) (q.2-p.2)` squared. -/
def distSq (p q : Coord) : ℚ := (q.1 - p.1)^2 + (q.2 - p.2)^2

/-- The pairs of `itertools.combinations(nodes, 2)` in its enumeration order. -/
def pairsOf : List Coord → List (Coord × Coord)
  | [] => []
  | x :: xs => (xs.map fun y => (x, y)) ++ pairsOf xs

/-- The length gate `1e-3 < dist <= max_dist` of the source, in squared form
(`dist ≥ 0`, so `dist ≤ max_dist ↔ 0 ≤ max_dist ∧ dist² ≤ max_dist²`). -/
def memberFilter (maxDist : ℚ) (p q : Coord) : Bool :=
  decide ((1/1000)^2 < distSq p q) && decide (0 ≤ maxDist) && decide (distSq p q ≤ maxDist^2)

/-- Metadata record appended per accepted pair (backend lines 81–90), with the
mirror field of step 4.  `len_sq` holds the square of the stored `length`. -/
structure MeshElement where
  id : ℕ
  p1 : Coord
  p2 : Coord
  mid_x : ℚ
  mid_y : ℚ
  len_sq : ℚ
  active : Bool
  strain_energy : ℚ
  mirror_id : Option ℕ
deriving DecidableEq, Repr

/-- Ground-structure member list: one element per qualifying combination, with
`id = len(ss.element_map)` after the `add_element` call, i.e. 1-based position. -/
def buildMembers (nodes : List Coord) (maxDist : ℚ) : List MeshElement :=
  ((pairsOf nodes).filter fun pq => memberFilter maxDist pq.1 pq.2).enum.map
    fun ke =>
      { id := ke.1 + 1
        p1 := ke.2.1
        p2 := ke.2.2
        mid_x := (ke.2.1.1 + ke.2.2.1) / 2
        mid_y := (ke.2.1.2 + ke.2.2.2) / 2
        len_sq := distSq ke.2.1 ke.2.2
        active := true
        strain_energy := 0
        mirror_id := none }

/-! ### SymmetryMapper — `initialize_structure` step 4 (lines 92–117) -/

/-- The twin search: first element (in metadata order) with `mid_x > center` whose
midpoint is within tolerance 0.1 of the target, squared form (`err < 0.1 ↔ err² < 1/100`).
The source's `min_error` bookkeeping is dead code because of the immediate `break`. -/
def findTwin (els : List MeshElement) (center tx ty : ℚ) : Option ℕ :=
  (els.find? fun p =>
      decide (center < p.mid_x) &&
      decide ((p.mid_x - tx)^2 + (p.mid_y - ty)^2 < 1/100)).map (·.id)

/-- Mirror assignment: every element strictly left of `center = span/2` gets the
result of the twin search at the reflected midpoint `(span − mid_x, mid_y)`;
elements at or right of center get `none`.  Only `mirror_id` is written. -/
def assignMirrors (span : ℚ) (els : List MeshElement) : List MeshElement :=
  els.map fun el =>
    if el.mid_x < span / 2 then
      { el with mirror_id := findTwin els (span / 2) (span - el.mid_x) el.mid_y }
    else
      { el with mirror_id := none }

/-- Steps 2–4 of `initialize_structure`: mesh generation plus mirror mapping,
with `max_dist = dx * 1.6`. -/
def initialize_structure (span height : ℚ) : List MeshElement :=
  assignMirrors span (buildMembers (genNodes span height) (span / 8 * 1.6))

/-! ### Supports and load — `initialize_structure` steps 5–6 (lines 119–146) -/

/-- Support records added to the solver. -/
inductive Support where
  | hinged (node : Option ℕ)
  | roll (node : Option ℕ)
  | fixed (node : Option ℕ)
deriving DecidableEq, Repr

/-- Source `get_nid(x, y)`: argmin (strict improvement, first minimum kept) of the distance
to `(x, y)` over the solver's node map, modelled as the grid nodes with 1-based ids. -/
def get_nid (nodes : List Coord) (x y : ℚ) : Option ℕ :=
  (nodes.enum.foldl
    (fun best kn =>
      let d := distSq kn.2 (x, y)
      match best with
      | none => some (kn.1 + 1, d)
      | some bi_bd => if d < bi_bd.2 then some (kn.1 + 1, d) else some bi_bd)
    none).map (·.1)

/-- The support `if/elif/elif` chain (lines 134–142): an unrecognized selector
matches no branch, so no support is added. -/
def apply_supports (support_type : String) (idL idR : Option ℕ) : List Support :=
  if support_type = "Pinned-Roller" then [.hinged idL, .roll idR]
  else if support_type = "Fixed-Fixed" then [.fixed idL, .fixed idR]
  else if support_type = "Pinned-Pinned" then [.hinged idL, .hinged idR]
  else []

/-- Result state of a full `initialize_structure` call. -/
structure InitState where
  members : List MeshElement
  supports : List Support
  load_node : Option ℕ
  load_fy : ℚ
  EA : ℚ
  EI : ℚ

/-- Full embedding of `initialize_structure(span, height, load_kn, support_type,
E_GPa, section_params)`: section properties, initial stiffness `EA = E·A`, `EI = E·I`
(`E = E_GPa · 1e9`), mesh with mirrors, supports at the nodes nearest `(0,0)` and
`(span,0)`, and the point load `Fy = −load` at the node nearest `(span/2, height)`.
No statement of the Python body can raise, so the result is always `.ok`. -/
def initialize_full (span height load_n : ℚ) (support_type : String) (E_GPa : ℚ)
    (B D tw tf : ℚ) : Except SectionError InitState := do
  let AI ← calculate_i_section_properties B D tw tf
  let E := E_GPa * 1e9
  let nodes := genNodes span height
  pure
    { members := assignMirrors span (buildMembers nodes (span / 8 * 1.6))
      supports := apply_supports support_type (get_nid nodes 0 0) (get_nid nodes span 0)
      load_node := get_nid nodes (span / 2) height
      load_fy := -load_n
      EA := E * AI.1
      EI := E * AI.2 }

/-! ### The iteration state — `elements_metadata` entries as `run_iteration` sees them

`run_iteration` works on whatever `elements_metadata` holds: geometry written at
mesh-build time, the `active` flag, the per-iteration `strain_energy` / `force_val`
floats, and `mirror_id`.  Here the `length` entry (a square root, in general
irrational) is an arbitrary rational field of the record; the mesh-construction
claims above constrain its square `len_sq` instead. -/

structure Element where
  id : ℕ
  p1 : Coord
  p2 : Coord
  mid_x : ℚ
  mid_y : ℚ
  length : ℚ
  active : Bool
  strain_energy : ℚ
  force_val : ℚ
  mirror_id : Option ℕ
deriving DecidableEq, Repr

/-- The geometry-and-identity part of an element: everything except `active`,
`strain_energy` and `force_val`. -/
def skelOf (el : Element) : ℕ × Coord × Coord × ℚ × ℚ × ℚ × Option ℕ :=
  (el.id, el.p1, el.p2, el.mid_x, el.mid_y, el.length, el.mirror_id)

/-- The part of an element that the symmetry-averaging stage can read but never
writes: id, activity and mirror reference. -/
def shapeOf (el : Element) : ℕ × Bool × Option ℕ := (el.id, el.active, el.mirror_id)

/-- Source `next((x for x in self.elements_metadata if x["id"] == i), None)`: the first
element carrying id `i`, if any. -/
def findId : List Element → ℕ → Option Element
  | [], _ => none
  | el :: rest, i => if el.id = i then some el else findId rest i

/-- The mirror reference carried by the (first) element with id `i`, if any. -/
def mirrorAt (ms : List Element) (i : ℕ) : Option ℕ :=
  (findId ms i).bind (·.mirror_id)

/-! ### Solver results — `ss.get_element_results(element_id=..)` (lines 169–187)

The result dictionary's `'N'` entry can be absent, `None`, a scalar, or a list of
optional samples along the member; `'Nmin'`/`'Nmax'` are read with default `0` and a
`None` is immediately replaced by `0`, so both collapse to an optional rational. -/

inductive NVal where
  | missing
  | null
  | scalar (x : ℚ)
  | samples (xs : List (Option ℚ))
deriving DecidableEq

structure ElemRes where
  N : NVal
  Nmin : Option ℚ
  Nmax : Option ℚ
deriving DecidableEq

/-- Force extraction (lines 171–187): `res.get('N', 0)` gives `0` when the key is
absent (then `abs 0 = 0`); a `None` value falls back to `max(|Nmin|, |Nmax|)`;
a list gives the maximum absolute value over its non-`None` entries (or `0` when
none remain); a scalar gives its absolute value. -/
def get_force (r : ElemRes) : ℚ :=
  match r.N with
  | .missing => |(0 : ℚ)|
  | .null => max |r.Nmin.getD 0| |r.Nmax.getD 0|
  | .samples xs =>
    let valid := (xs.filterMap id).map (fun v => |v|)
    match valid.max? with
    | some m => m
    | none => 0
  | .scalar x => |x|

/-- Stage B (lines 163–196): for every member of `active_list` store
`force_val = force` and `strain_energy = force² · length`; inactive members are
untouched.  (The running `total_system_energy` / `max_force_iter` statistics feed
only the log line and the display payload and are not modelled.) -/
def eval_energy (results : ℕ → ElemRes) (ms : List Element) : List Element :=
  ms.map fun el =>
    if el.active then
      let force := get_force (results el.id)
      { el with force_val := force, strain_energy := force ^ 2 * el.length }
    else el

/-! ### Stage C — symmetry averaging (lines 198–206) -/

/-- Overwrite the `strain_energy` of the first element whose `id` matches
(Python mutates the single dict object that `next` returned). -/
def updEnergy : List Element → ℕ → ℚ → List Element
  | [], _, _ => []
  | el :: rest, i, e =>
    if el.id = i then { el with strain_energy := e } :: rest
    else el :: updEnergy rest i e

/-- One pass of the `for el in active_list` body for the element with id `i`:
if it has a `mirror_id` and the twin is found and active, write the average of the
two current energies back to both. -/
def symStep (ms : List Element) (i : ℕ) : List Element :=
  match findId ms i with
  | none => ms
  | some el =>
    match el.mirror_id with
    | none => ms
    | some j =>
      match findId ms j with
      | none => ms
      | some twin =>
        if twin.active then
          let avg := (el.strain_energy + twin.strain_energy) / 2
          updEnergy (updEnergy ms i avg) j avg
        else ms

/-- Ids of `active_list = [el for el in self.elements_metadata if el["active"]]`,
captured before stage B (stages B and C never change `active`). -/
def activeIds (ms : List Element) : List ℕ :=
  (ms.filter (·.active)).map (·.id)

/-- Stage C: the averaging loop, in `active_list` order, each step reading the
energies already rewritten by earlier steps. -/
def symmetrize (ms : List Element) (ids : List ℕ) : List Element :=
  ids.foldl symStep ms

/-- Stages B and C together: the member list as it stands when the ranking sort
begins. -/
def post_sym (results : ℕ → ElemRes) (ms : List Element) : List Element :=
  symmetrize (eval_energy results ms) (activeIds ms)

/-! ### Stage D — ranking and removal count (lines 208–222) -/

/-- Comparison `a.strain_energy ≤ b.strain_energy`, the key of `active_list.sort`. -/
def energyLe (a b : Element) : Prop := a.strain_energy ≤ b.strain_energy

instance : DecidableRel energyLe := fun a b =>
  inferInstanceAs (Decidable (a.strain_energy ≤ b.strain_energy))

instance : IsTotal Element energyLe :=
  ⟨fun a b => le_total a.strain_energy b.strain_energy⟩

instance : IsTrans Element energyLe :=
  ⟨fun _ _ _ h1 h2 => le_trans h1 h2⟩

/-- Python's `int(q)` for the count: truncation toward zero. -/
def truncQ (q : ℚ) : ℤ :=
  if 0 ≤ q then ((q.num.toNat / q.den : ℕ) : ℤ)
  else -(((-q.num).toNat / q.den : ℕ) : ℤ)

/-- Lines 213–222: `count = int(n · ratio)`; raised to `1` when below `1`; forced
to `0` when the active count is below the fixed floor `15`. -/
def count_to_remove (n : ℕ) (ratio : ℚ) : ℕ :=
  let c0 : ℤ := truncQ ((n : ℚ) * ratio)
  let c1 : ℤ := if c0 < 1 then 1 else c0
  (if n < 15 then 0 else c1).toNat

/-- The active list after stage C, still in metadata order. -/
def activesAfter (results : ℕ → ElemRes) (ms : List Element) : List Element :=
  (post_sym results ms).filter (·.active)

/-- Source `active_list.sort(key=lambda x: x["strain_energy"])`: a stable ascending sort
by `strain_energy` (Python's sort is stable; so is insertion sort). -/
def sorted_active (results : ℕ → ElemRes) (ms : List Element) : List Element :=
  (activesAfter results ms).insertionSort energyLe

/-- The elements scheduled for removal: the first `count_to_remove` entries of the
ascending sort. -/
def selected_of (results : ℕ → ElemRes) (ms : List Element) (ratio : ℚ) : List Element :=
  (sorted_active results ms).take (count_to_remove (activesAfter results ms).length ratio)

/-! ### Stage E — soft kill (lines 224–245) -/

/-- The fixed attenuation factor `1e-6` applied to `EA` and `EI`. -/
def killFactor : ℚ := 1e-6

/-- Set `active = False` on the first element whose `id` matches. -/
def setInactive : List Element → ℕ → List Element
  | [], _ => []
  | el :: rest, i =>
    if el.id = i then { el with active := false } :: rest
    else el :: setInactive rest i

/-- Source `element_map[i].EA *= 1e-6; element_map[i].EI *= 1e-6` on the solver's
stiffness registry. -/
def scaleStiff (f : ℕ → ℚ × ℚ) (i : ℕ) : ℕ → ℚ × ℚ :=
  fun k => if k = i then ((f i).1 * killFactor, (f i).2 * killFactor) else f k

/-- One pass of the kill loop for the scheduled element `tgt`: deactivate it and
attenuate its stiffness; then, `if target_el["mirror_id"]:` (Python truthiness —
`None` and `0` are both falsy), look the twin up in the current metadata and, when
found and still active, deactivate and attenuate it too. -/
def killStep (st : List Element × (ℕ → ℚ × ℚ)) (tgt : Element) :
    List Element × (ℕ → ℚ × ℚ) :=
  let ms := setInactive st.1 tgt.id
  let sf := scaleStiff st.2 tgt.id
  match tgt.mirror_id with
  | some j =>
    if j ≠ 0 then
      match findId ms j with
      | some twin =>
        if twin.active then (setInactive ms j, scaleStiff sf j) else (ms, sf)
      | none => (ms, sf)
    else (ms, sf)
  | none => (ms, sf)

/-- Output of one `run_iteration` call: the member list, the solver stiffness
registry, and the returned `len(active_list) - count_to_remove`.  The
`display_data` payload (a pure projection of the member list for plotting) is not
modelled. -/
structure IterOut where
  members : List Element
  stiff : ℕ → ℚ × ℚ
  count : ℤ

/-- Source `run_iteration(iteration_num, removal_ratio)`: solve (the oracle `results`),
stage B, stage C, sort, count, kill loop, and the return value. -/
def run_iteration (results : ℕ → ElemRes) (ms : List Element)
    (stiff : ℕ → ℚ × ℚ) (ratio : ℚ) : IterOut :=
  let ms2 := post_sym results ms
  let actives := ms2.filter (·.active)
  let c := count_to_remove actives.length ratio
  let sel := (actives.insertionSort energyLe).take c
  let out := sel.foldl killStep (ms2, stiff)
  { members := out.1, stiff := out.2, count := (actives.length : ℤ) - (c : ℤ) }

/-! ### OptimizationLoop — `ui.run_loop` (ui.py lines 113–177) -/

/-- Status after a loop run: still scheduled (`running`), terminated by the
convergence check (`converged`), or terminated by the `except` branch (`failed`).
(The user-initiated stop path is outside the claims modelled here.) -/
inductive LoopStatus where
  | running
  | converged
  | failed
deriving DecidableEq, Repr

/-- Mutable state carried between frames: the member metadata and the solver
stiffness registry. -/
abbrev LoopState := List Element × (ℕ → ℚ × ℚ)

/-- The member/stiffness state after one frame driven by solver results `res`. -/
def next_state (res : ℕ → ElemRes) (ratio : ℚ) (st : LoopState) : LoopState :=
  let out := run_iteration res st.1 st.2 ratio
  (out.members, out.stiff)

/-- The `active_count` that `run_iteration` returns for the frame driven by `res`. -/
def reported_count (res : ℕ → ElemRes) (ratio : ℚ) (st : LoopState) : ℤ :=
  (run_iteration res st.1 st.2 ratio).count

/-- The solver results of a frame outcome, with a default for the failed case. -/
def oracleRes (o : Except Unit (ℕ → ElemRes)) : ℕ → ElemRes :=
  match o with
  | .ok r => r
  | .error _ => fun _ => ⟨.missing, none, none⟩

/-- The state at the start of frame `k` when every earlier frame solved
successfully, with `oracle i` the solver outcome of frame `i`. -/
def state_at (oracle : ℕ → Except Unit (ℕ → ElemRes)) (ratio : ℚ) (st : LoopState) :
    ℕ → LoopState
  | 0 => st
  | k + 1 => next_state (oracleRes (oracle k)) ratio (state_at oracle ratio st k)

/-- The count reported at frame `k` (meaningful while no earlier frame failed). -/
def count_at (oracle : ℕ → Except Unit (ℕ → ElemRes)) (ratio : ℚ) (st : LoopState)
    (k : ℕ) : ℤ :=
  reported_count (oracleRes (oracle k)) ratio (state_at oracle ratio st k)

/-- Source `run_loop`: each frame increments the iteration counter, runs one BESO step in
a `try` (an oracle error is the solver exception caught by `except`, stopping the
loop as failed), then either stops as converged when `active_count < 25` or
schedules the next frame (`root.after(200, run_loop)`), here with explicit fuel.
Returns the final iteration counter and status. -/
def run_loop (oracle : ℕ → Except Unit (ℕ → ElemRes)) (ratio : ℚ) (st : LoopState)
    (iter : ℕ) : ℕ → ℕ × LoopStatus
  | 0 => (iter, .running)
  | fuel + 1 =>
    match oracle 0 with
    | .error _ => (iter + 1, .failed)
    | .ok res =>
      if reported_count res ratio st < 25 then (iter + 1, .converged)
      else run_loop (fun i => oracle (i + 1)) ratio (next_state res ratio st) (iter + 1) fuel

/-! ### Predicates used by the claims -/

/-- Unordered equality of endpoint pairs. -/
def unordEq (a b : Coord × Coord) : Prop :=
  (a.1 = b.1 ∧ a.2 = b.2) ∨ (a.1 = b.2 ∧ a.2 = b.1)

instance : DecidableRel unordEq := fun a b => by
  unfold unordEq; infer_instance

/-- C8's conclusion for a given span/height: every member's squared length lies in
`(ε², max_dist²]`; no two members carry the same unordered endpoint pair; and every
unordered pair of distinct grid nodes passing the length gate is covered by exactly
one member. -/
def groundStructureOk (span height : ℚ) : Prop :=
  (∀ m ∈ buildMembers (genNodes span height) (span / 8 * 1.6),
      (1/1000)^2 < m.len_sq ∧ m.len_sq ≤ (span / 8 * 1.6)^2) ∧
  (buildMembers (genNodes span height) (span / 8 * 1.6)).Pairwise
      (fun a b => ¬ unordEq (a.p1, a.p2) (b.p1, b.p2)) ∧
  (∀ p ∈ genNodes span height, ∀ q ∈ genNodes span height, p ≠ q →
      memberFilter (span / 8 * 1.6) p q = true →
      (buildMembers (genNodes span height) (span / 8 * 1.6)).countP
          (fun m => decide (unordEq (m.p1, m.p2) (p, q))) = 1)

/-- Decidable form of "the member with id `k`, if any, is inactive". -/
def deadAt (ms : List Element) (k : ℕ) : Bool :=
  match findId ms k with
  | some el => !el.active
  | none => true

/-- Decidable form of C5's per-iteration conclusion: every active member whose
mirror is present and active has exactly the mirror's strain energy. -/
def symPairsEqual (ms : List Element) : Bool :=
  ms.all fun el =>
    !el.active ||
    (match el.mirror_id with
     | none => true
     | some j =>
       match findId ms j with
       | none => true
       | some tw => !tw.active || (el.strain_energy == tw.strain_energy))

/-- Mirror references point only at elements that carry no mirror reference of
their own (true of `initialize_structure` output: sources lie strictly left of the
centerline, targets strictly right, and right-side elements get `none`). -/
def mirrorTargetsBlank (ms : List Element) : Prop :=
  ∀ el ∈ ms, ∀ tw ∈ ms, el.mirror_id = some tw.id → tw.mirror_id = none

/-- No two distinct active members share the same mirror reference. -/
def mirrorInjOnActive (ms : List Element) : Prop :=
  ∀ a ∈ ms, ∀ b ∈ ms, a.active = true → b.active = true →
    a.mirror_id ≠ none → a.mirror_id = b.mirror_id → a = b

instance (ms : List Element) : Decidable (mirrorTargetsBlank ms) := by
  unfold mirrorTargetsBlank
  infer_instance

instance (ms : List Element) : Decidable (mirrorInjOnActive ms) := by
  unfold mirrorInjOnActive
  infer_instance

/-- Modelled from the spec: the removal-count policy as claim C4 words it — the
count `max(1, ⌊n·r⌋)` is forced to zero whenever *removing that many members would
bring the active count below* the safety floor 15.  (Truncation equals the floor
here since the arguments are nonnegative.)  The source instead zeroes the count
only when the active count is *already* below 15. -/
def count_to_remove_spec (n : ℕ) (ratio : ℚ) : ℕ :=
  let c := max 1 (truncQ ((n : ℚ) * ratio)).toNat
  if (n : ℤ) - (c : ℤ) < 15 then 0 else c

/-! ### Concrete inputs used by witnesses and counterexamples -/

/-- An element record with the given id and mirror reference, unit length, zeroed
energies, and degenerate geometry (geometry is irrelevant to the iteration stage). -/
def mkEl (i : ℕ) (mir : Option ℕ) : Element :=
  { id := i, p1 := (0, 0), p2 := (0, 0), mid_x := 0, mid_y := 0, length := 1,
    active := true, strain_energy := 0, force_val := 0, mirror_id := mir }

/-- Three members: two "left" members both pointing at member 3 as mirror (the
shape produced by crossing cell diagonals, which share a midpoint), member 3 free. -/
def ms5 : List Element := [mkEl 1 (some 3), mkEl 2 (some 3), mkEl 3 none]

/-- Solver oracle for `ms5`: axial forces 0, 2, 4 for ids 1, 2, 3. -/
def r5 : ℕ → ElemRes := fun i => ⟨.scalar (2 * (i : ℚ) - 2), none, none⟩

/-- A mirror-free 15-member state (the safety-floor boundary). -/
def ms15 : List Element := (List.range 15).map fun k => mkEl (k + 1) none

/-- Solver oracle for `ms15`: axial force equal to the element id. -/
def r15 : ℕ → ElemRes := fun i => ⟨.scalar (i : ℚ), none, none⟩

/-- Sixteen members; member 1 is mirrored by member 16, the rest are free. -/
def ms16 : List Element :=
  mkEl 1 (some 16) :: ((List.range 14).map fun k => mkEl (k + 2) none) ++ [mkEl 16 none]

/-- Solver oracle for `ms16`: zero force on the mirror pair, force `i` elsewhere,
so the pair ranks weakest. -/
def r16 : ℕ → ElemRes :=
  fun i => ⟨.scalar (if i = 1 ∨ i = 16 then 0 else (i : ℚ)), none, none⟩

/-- A unit stiffness registry. -/
def stiff0 : ℕ → ℚ × ℚ := fun _ => (1, 1)

/-- A two-member state with a well-formed one-directional mirror pair. -/
def ms2w : List Element := [mkEl 1 (some 2), mkEl 2 none]

/-- Solver oracle for `ms2w`: forces 1 and 3. -/
def r2w : ℕ → ElemRes := fun i => ⟨.scalar (2 * (i : ℚ) - 1), none, none⟩

/-- An always-successful solver oracle reporting nothing. -/
def oracle0 : ℕ → Except Unit (ℕ → ElemRes) := fun _ => .ok fun _ => ⟨.missing, none, none⟩

/-- The first member of the default 16×5 mesh: the leftmost vertical bar from
`(0,0)` to `(0, 1.667)`, whose assigned mirror is member 105. -/
def el1mesh : MeshElement :=
  { id := 1, p1 := (0, 0), p2 := (0, 1667/1000), mid_x := 0, mid_y := 1667/2000,
    len_sq := (1667/1000)^2, active := true, strain_energy := 0, mirror_id := some 105 }

/-! ## Lemmas about the primitive list operations -/

theorem updEnergy_length (ms : List Element) (i : ℕ) (e : ℚ) :
    (updEnergy ms i e).length = ms.length := by
  induction ms with
  | nil => rfl
  | cons el rest ih => by_cases h : el.id = i <;> simp [updEnergy, h, ih]

theorem updEnergy_map {α : Type} (f : Element → α)
    (hf : ∀ el e, f { el with strain_energy := e } = f el)
    (ms : List Element) (i : ℕ) (e : ℚ) : (updEnergy ms i e).map f = ms.map f := by
  induction ms with
  | nil => rfl
  | cons el rest ih =>
    simp only [updEnergy]
    split
    · simp [hf]
    · simp [ih]

theorem setInactive_length (ms : List Element) (i : ℕ) :
    (setInactive ms i).length = ms.length := by
  induction ms with
  | nil => rfl
  | cons el rest ih => by_cases h : el.id = i <;> simp [setInactive, h, ih]

theorem setInactive_map {α : Type} (f : Element → α)
    (hf : ∀ el, f { el with active := false } = f el)
    (ms : List Element) (i : ℕ) : (setInactive ms i).map f = ms.map f := by
  induction ms with
  | nil => rfl
  | cons el rest ih =>
    simp only [setInactive]
    split
    · simp [hf]
    · simp [ih]

theorem findId_updEnergy_self (ms : List Element) (i : ℕ) (e : ℚ) :
    findId (updEnergy ms i e) i =
      (findId ms i).map fun el => { el with strain_energy := e } := by
  induction ms with
  | nil => rfl
  | cons el rest ih => by_cases h : el.id = i <;> simp [updEnergy, findId, h, ih]

theorem findId_updEnergy_ne (ms : List Element) {i k : ℕ} (h : k ≠ i) (e : ℚ) :
    findId (updEnergy ms i e) k = findId ms k := by
  induction ms with
  | nil => rfl
  | cons el rest ih =>
    by_cases h1 : el.id = i
    · have h2 : el.id ≠ k := by rw [h1]; exact fun hh => h hh.symm
      simp [updEnergy, findId, h1, h2, Ne.symm h]
    · by_cases h2 : el.id = k <;> simp [updEnergy, findId, h1, h2, ih, h]

theorem findId_setInactive_self (ms : List Element) (i : ℕ) :
    findId (setInactive ms i) i =
      (findId ms i).map fun el => { el with active := false } := by
  induction ms with
  | nil => rfl
  | cons el rest ih => by_cases h : el.id = i <;> simp [setInactive, findId, h, ih]

theorem findId_setInactive_ne (ms : List Element) {i k : ℕ} (h : k ≠ i) :
    findId (setInactive ms i) k = findId ms k := by
  induction ms with
  | nil => rfl
  | cons el rest ih =>
    by_cases h1 : el.id = i
    · have h2 : el.id ≠ k := by rw [h1]; exact fun hh => h hh.symm
      simp [setInactive, findId, h1, h2, Ne.symm h]
    · by_cases h2 : el.id = k <;> simp [setInactive, findId, h1, h2, ih, h]

theorem deadAt_setInactive_self (ms : List Element) (i : ℕ) :
    deadAt (setInactive ms i) i = true := by
  unfold deadAt
  rw [findId_setInactive_self]
  cases findId ms i <;> simp

theorem deadAt_setInactive_mono (ms : List Element) (i k : ℕ)
    (h : deadAt ms k = true) : deadAt (setInactive ms i) k = true := by
  by_cases hk : k = i
  · subst hk; exact deadAt_setInactive_self ms k
  · unfold deadAt at h ⊢; rw [findId_setInactive_ne ms hk]; exact h

/-- The member list after one kill step is the target deactivated, possibly with
the twin deactivated as well. -/
theorem killStep_members (st : List Element × (ℕ → ℚ × ℚ)) (tgt : Element) :
    (killStep st tgt).1 = setInactive st.1 tgt.id ∨
    ∃ j, tgt.mirror_id = some j ∧
      (killStep st tgt).1 = setInactive (setInactive st.1 tgt.id) j := by
  unfold killStep
  cases tgt.mirror_id with
  | none => left; rfl
  | some j =>
    by_cases hj : j ≠ 0
    · simp only [if_pos hj]
      cases findId (setInactive st.1 tgt.id) j with
      | none => left; rfl
      | some twin =>
        by_cases ha : twin.active
        · right; exact ⟨j, rfl, by simp [ha]⟩
        · left; simp [ha]
    · simp only [if_neg hj]; left; trivial

/-- The stiffness registry after one kill step is the target's entry attenuated,
possibly with one more entry attenuated. -/
theorem killStep_stiff (st : List Element × (ℕ → ℚ × ℚ)) (tgt : Element) :
    (killStep st tgt).2 = scaleStiff st.2 tgt.id ∨
    ∃ j, (killStep st tgt).2 = scaleStiff (scaleStiff st.2 tgt.id) j := by
  unfold killStep
  cases tgt.mirror_id with
  | none => left; rfl
  | some j =>
    by_cases hj : j ≠ 0
    · simp only [if_pos hj]
      cases findId (setInactive st.1 tgt.id) j with
      | none => left; rfl
      | some twin =>
        by_cases ha : twin.active
        · right; exact ⟨j, by simp [ha]⟩
        · left; simp [ha]
    · simp only [if_neg hj]; left; trivial

theorem deadAt_killStep_mono (st : List Element × (ℕ → ℚ × ℚ)) (tgt : Element)
    (k : ℕ) (h : deadAt st.1 k = true) : deadAt (killStep st tgt).1 k = true := by
  rcases killStep_members st tgt with hm | ⟨j, _, hm⟩ <;> rw [hm]
  · exact deadAt_setInactive_mono _ _ _ h
  · exact deadAt_setInactive_mono _ _ _ (deadAt_setInactive_mono _ _ _ h)

theorem deadAt_killStep_self (st : List Element × (ℕ → ℚ × ℚ)) (tgt : Element) :
    deadAt (killStep st tgt).1 tgt.id = true := by
  rcases killStep_members st tgt with hm | ⟨j, _, hm⟩ <;> rw [hm]
  · exact deadAt_setInactive_self _ _
  · exact deadAt_setInactive_mono _ _ _ (deadAt_setInactive_self _ _)

/-- After a kill step, the target's mirror (when its id is truthy) is dead:
either it was already absent or inactive, or the step deactivated it. -/
theorem deadAt_killStep_mirror (st : List Element × (ℕ → ℚ × ℚ)) (tgt : Element)
    {j : ℕ} (hm : tgt.mirror_id = some j) (hj : j ≠ 0) :
    deadAt (killStep st tgt).1 j = true := by
  unfold killStep
  rw [hm]
  simp only [if_pos hj]
  cases hf : findId (setInactive st.1 tgt.id) j with
  | none => simp [deadAt, hf]
  | some twin =>
    by_cases ha : twin.active
    · simp only [ha, if_pos]
      exact deadAt_setInactive_self _ _
    · simp only [ha, if_neg]
      simp [deadAt, hf, ha]

/-! ## Claim C10 — unknown support selector -/

/-- Claim C10: an `initialize_structure` call with a support selector other than
"Pinned-Roller", "Fixed-Fixed" or "Pinned-Pinned" completes without error and
applies no supports at all. -/
theorem c10_unknown_support (s : String) (h1 : s ≠ "Pinned-Roller")
    (h2 : s ≠ "Fixed-Fixed") (h3 : s ≠ "Pinned-Pinned")
    (span height load_n E_GPa B D tw tf : ℚ) :
    ∃ st : InitState,
      initialize_full span height load_n s E_GPa B D tw tf = .ok st ∧
      st.supports = [] := by
  refine ⟨_, rfl, ?_⟩
  show apply_supports s _ _ = []
  simp [apply_supports, h1, h2, h3]

/-- Witness for C10 at the selector "Cantilever" and the default parameters. -/
theorem c10_witness :
    ("Cantilever" : String) ≠ "Pinned-Roller" ∧
    ∃ st : InitState,
      initialize_full 16 5 800000 "Cantilever" 200 (3/20) (3/10) (1/125) (3/50) = .ok st ∧
      st.supports = [] :=
  ⟨by decide,
   c10_unknown_support "Cantilever" (by decide) (by decide) (by decide)
     16 5 800000 200 (3/20) (3/10) (1/125) (3/50)⟩

/-! ## Claim C1 — degenerate sections do not raise -/

theorem assignMirrors_length (span : ℚ) (els : List MeshElement) :
    (assignMirrors span els).length = els.length := by
  simp [assignMirrors]

/-- Claim C1 counterexample: for the degenerate I-section with flange thickness
equal to half the total depth (`tf = 0.15 m`, `D = 0.3 m`), the calculator
returns `.ok` — no `InvalidGeometryError` is raised, since the backend defines no
such exception and no validation — and initialization also returns normally,
after building the full 107-member mesh. -/
theorem c1_counterexample :
    (3/10 : ℚ) / 2 ≤ 3/20 ∧
    calculate_i_section_properties (3/20) (3/10) (1/125) (3/20) = .ok (9/200, 27/80000) ∧
    ((initialize_full 16 5 800000 "Pinned-Roller" 200 (3/20) (3/10) (1/125) (3/20)).toOption.map
      (fun st => st.members.length)) = some 107 := by
  refine ⟨by norm_num, by norm_num [calculate_i_section_properties, Prod.ext_iff], ?_⟩
  show some ((assignMirrors 16 (buildMembers (genNodes 16 5) (16 / 8 * 1.6))).length) = some 107
  rw [assignMirrors_length]
  decide

/-- Claim C1 (amended): `calculate_i_section_properties` performs no validation
and never fails — for every input, including degenerate ones, it returns the
rectangle-subtraction area and inertia — and `initialize_structure` never raises:
it always proceeds to build the mesh, whose member list is exactly the ground
structure with mirrors of `initialize_structure`. -/
theorem c1_amended (B D tw tf span height load_n : ℚ) (s : String) (E_GPa : ℚ) :
    calculate_i_section_properties B D tw tf =
      .ok ((2 * B * tf) + ((D - 2 * tf) * tw),
           (1/12) * (B * D^3) - (1/12) * ((B - tw) * (D - 2*tf)^3)) ∧
    ∃ st : InitState,
      initialize_full span height load_n s E_GPa B D tw tf = .ok st ∧
      st.members = initialize_structure span height :=
  ⟨rfl, _, rfl, rfl⟩

/-! ## Shape and skeleton preservation through the iteration stages -/

theorem eval_energy_map {α : Type} (f : Element → α)
    (hf : ∀ el q e, f { el with force_val := q, strain_energy := e } = f el)
    (r : ℕ → ElemRes) (ms : List Element) : (eval_energy r ms).map f = ms.map f := by
  unfold eval_energy
  rw [List.map_map]
  refine List.map_congr_left fun el _ => ?_
  simp only [Function.comp_apply]
  by_cases h : el.active
  · rw [if_pos h]; exact hf el _ _
  · rw [if_neg h]

theorem eval_energy_shape (r : ℕ → ElemRes) (ms : List Element) :
    (eval_energy r ms).map shapeOf = ms.map shapeOf :=
  eval_energy_map shapeOf (fun _ _ _ => rfl) r ms

theorem eval_energy_skel (r : ℕ → ElemRes) (ms : List Element) :
    (eval_energy r ms).map skelOf = ms.map skelOf :=
  eval_energy_map skelOf (fun _ _ _ => rfl) r ms

theorem updEnergy_shape (ms : List Element) (i : ℕ) (e : ℚ) :
    (updEnergy ms i e).map shapeOf = ms.map shapeOf :=
  updEnergy_map shapeOf (fun _ _ => rfl) ms i e

theorem updEnergy_skel (ms : List Element) (i : ℕ) (e : ℚ) :
    (updEnergy ms i e).map skelOf = ms.map skelOf :=
  updEnergy_map skelOf (fun _ _ => rfl) ms i e

theorem setInactive_skel (ms : List Element) (i : ℕ) :
    (setInactive ms i).map skelOf = ms.map skelOf :=
  setInactive_map skelOf (fun _ => rfl) ms i

theorem symStep_shape (ms : List Element) (i : ℕ) :
    (symStep ms i).map shapeOf = ms.map shapeOf := by
  unfold symStep
  repeat' split
  all_goals simp [updEnergy_shape]

theorem symStep_skel (ms : List Element) (i : ℕ) :
    (symStep ms i).map skelOf = ms.map skelOf := by
  unfold symStep
  repeat' split
  all_goals simp [updEnergy_skel]

theorem symmetrize_shape (ids : List ℕ) (ms : List Element) :
    (symmetrize ms ids).map shapeOf = ms.map shapeOf := by
  induction ids generalizing ms with
  | nil => rfl
  | cons i rest ih =>
    simp only [symmetrize, List.foldl_cons]
    exact (ih (symStep ms i)).trans (symStep_shape ms i)

theorem symmetrize_skel (ids : List ℕ) (ms : List Element) :
    (symmetrize ms ids).map skelOf = ms.map skelOf := by
  induction ids generalizing ms with
  | nil => rfl
  | cons i rest ih =>
    simp only [symmetrize, List.foldl_cons]
    exact (ih (symStep ms i)).trans (symStep_skel ms i)

theorem symStep_active (ms : List Element) (i : ℕ) :
    (symStep ms i).map (·.active) = ms.map (·.active) := by
  unfold symStep
  repeat' split
  all_goals simp [updEnergy_map (·.active) (fun _ _ => rfl)]

theorem symmetrize_active (ids : List ℕ) (ms : List Element) :
    (symmetrize ms ids).map (·.active) = ms.map (·.active) := by
  induction ids generalizing ms with
  | nil => rfl
  | cons i rest ih =>
    simp only [symmetrize, List.foldl_cons]
    exact (ih (symStep ms i)).trans (symStep_active ms i)

theorem post_sym_active (r : ℕ → ElemRes) (ms : List Element) :
    (post_sym r ms).map (·.active) = ms.map (·.active) :=
  (symmetrize_active _ _).trans (eval_energy_map (·.active) (fun _ _ _ => rfl) r ms)

theorem post_sym_shape (r : ℕ → ElemRes) (ms : List Element) :
    (post_sym r ms).map shapeOf = ms.map shapeOf :=
  (symmetrize_shape _ _).trans (eval_energy_shape r ms)

theorem post_sym_skel (r : ℕ → ElemRes) (ms : List Element) :
    (post_sym r ms).map skelOf = ms.map skelOf :=
  (symmetrize_skel _ _).trans (eval_energy_skel r ms)

theorem killFold_skel (sel : List Element) (st : List Element × (ℕ → ℚ × ℚ)) :
    (sel.foldl killStep st).1.map skelOf = st.1.map skelOf := by
  induction sel generalizing st with
  | nil => rfl
  | cons tgt rest ih =>
    rw [List.foldl_cons]
    refine (ih (killStep st tgt)).trans ?_
    rcases killStep_members st tgt with hm | ⟨j, _, hm⟩ <;> rw [hm] <;>
      simp [setInactive_skel]

/-! ### Monotonicity of the active flags -/

theorem actImp_refl (l : List Bool) :
    List.Forall₂ (fun a b => a = true → b = true) l l := by
  induction l with
  | nil => exact List.Forall₂.nil
  | cons x xs ih => exact List.Forall₂.cons (fun h => h) ih

theorem actImp_trans {a b c : List Bool}
    (h1 : List.Forall₂ (fun x y => x = true → y = true) a b)
    (h2 : List.Forall₂ (fun x y => x = true → y = true) b c) :
    List.Forall₂ (fun x y => x = true → y = true) a c := by
  induction h1 generalizing c with
  | nil => cases h2; exact List.Forall₂.nil
  | cons hxy _ ih =>
    cases h2 with
    | cons hyz tl => exact List.Forall₂.cons (fun h => hyz (hxy h)) (ih tl)

theorem actImp_of_map_eq {l1 l2 : List Element}
    (h : l1.map (·.active) = l2.map (·.active)) :
    List.Forall₂ (fun a b => a = true → b = true)
      (l1.map (·.active)) (l2.map (·.active)) := by
  rw [h]; exact actImp_refl _

theorem setInactive_active_imp (ms : List Element) (i : ℕ) :
    List.Forall₂ (fun a b => a = true → b = true)
      ((setInactive ms i).map (·.active)) (ms.map (·.active)) := by
  induction ms with
  | nil => exact List.Forall₂.nil
  | cons el rest ih =>
    simp only [setInactive]
    split
    · exact List.Forall₂.cons (fun h => absurd h (by simp)) (actImp_refl _)
    · exact List.Forall₂.cons (fun h => h) ih

theorem killStep_active_imp (st : List Element × (ℕ → ℚ × ℚ)) (tgt : Element) :
    List.Forall₂ (fun a b => a = true → b = true)
      ((killStep st tgt).1.map (·.active)) (st.1.map (·.active)) := by
  rcases killStep_members st tgt with hm | ⟨j, _, hm⟩ <;> rw [hm]
  · exact setInactive_active_imp _ _
  · exact actImp_trans (setInactive_active_imp _ _) (setInactive_active_imp _ _)

theorem killFold_active_imp (sel : List Element) (st : List Element × (ℕ → ℚ × ℚ)) :
    List.Forall₂ (fun a b => a = true → b = true)
      ((sel.foldl killStep st).1.map (·.active)) (st.1.map (·.active)) := by
  induction sel generalizing st with
  | nil => exact actImp_refl _
  | cons tgt rest ih =>
    rw [List.foldl_cons]
    exact actImp_trans (ih (killStep st tgt)) (killStep_active_imp st tgt)

/-! ### The stiffness registry is only ever attenuated -/

theorem scaleStiff_pow (f : ℕ → ℚ × ℚ) (i k : ℕ) :
    ∃ m : ℕ, scaleStiff f i k = ((f k).1 * killFactor ^ m, (f k).2 * killFactor ^ m) := by
  by_cases h : k = i
  · subst h; exact ⟨1, by simp [scaleStiff]⟩
  · exact ⟨0, by simp [scaleStiff, h]⟩

theorem stiffPow_trans {f g h : ℕ → ℚ × ℚ}
    (h1 : ∀ k, ∃ m : ℕ, g k = ((f k).1 * killFactor ^ m, (f k).2 * killFactor ^ m))
    (h2 : ∀ k, ∃ m : ℕ, h k = ((g k).1 * killFactor ^ m, (g k).2 * killFactor ^ m)) :
    ∀ k, ∃ m : ℕ, h k = ((f k).1 * killFactor ^ m, (f k).2 * killFactor ^ m) := by
  intro k
  obtain ⟨m1, e1⟩ := h1 k
  obtain ⟨m2, e2⟩ := h2 k
  refine ⟨m1 + m2, ?_⟩
  rw [e2, e1]
  simp [pow_add, mul_assoc]

theorem killStep_stiff_pow (st : List Element × (ℕ → ℚ × ℚ)) (tgt : Element) :
    ∀ k, ∃ m : ℕ, (killStep st tgt).2 k =
      ((st.2 k).1 * killFactor ^ m, (st.2 k).2 * killFactor ^ m) := by
  rcases killStep_stiff st tgt with hs | ⟨j, hs⟩ <;> rw [hs]
  · exact fun k => scaleStiff_pow _ _ k
  · exact stiffPow_trans (fun k => scaleStiff_pow _ _ k) (fun k => scaleStiff_pow _ _ k)

theorem killFold_stiff_pow (sel : List Element) (st : List Element × (ℕ → ℚ × ℚ)) :
    ∀ k, ∃ m : ℕ, (sel.foldl killStep st).2 k =
      ((st.2 k).1 * killFactor ^ m, (st.2 k).2 * killFactor ^ m) := by
  induction sel generalizing st with
  | nil => exact fun k => ⟨0, by simp⟩
  | cons tgt rest ih =>
    rw [List.foldl_cons]
    exact stiffPow_trans (killStep_stiff_pow st tgt) (ih (killStep st tgt))

/-! ## Claim C9 — soft kill never deletes or mutates geometry -/

/-- Claim C9: a full `run_iteration` pass never deletes a member and never touches
its geometry or identity: the skeleton list (id, endpoints, midpoint, length,
mirror reference) is unchanged, the member count is constant, the `active` flag
only ever moves from `true` to `false`, and every solver stiffness entry is the
original pair scaled by a (possibly zero) power of the fixed attenuation factor
`1e-6` — members are soft-killed in place, never removed from the solver. -/
theorem c9_removal_frame (results : ℕ → ElemRes) (ms : List Element)
    (stiff : ℕ → ℚ × ℚ) (ratio : ℚ) :
    (run_iteration results ms stiff ratio).members.map skelOf = ms.map skelOf ∧
    (run_iteration results ms stiff ratio).members.length = ms.length ∧
    List.Forall₂ (fun a b => a = true → b = true)
      ((run_iteration results ms stiff ratio).members.map (·.active))
      (ms.map (·.active)) ∧
    ∀ k, ∃ m : ℕ, (run_iteration results ms stiff ratio).stiff k =
      ((stiff k).1 * killFactor ^ m, (stiff k).2 * killFactor ^ m) := by
  have hskel : (run_iteration results ms stiff ratio).members.map skelOf = ms.map skelOf := by
    show ((_ : List Element).foldl killStep (post_sym results ms, stiff)).1.map skelOf = _
    rw [killFold_skel]
    exact post_sym_skel results ms
  refine ⟨hskel, ?_, ?_, ?_⟩
  · have := congrArg List.length hskel
    simpa using this
  · refine actImp_trans (killFold_active_imp _ _) ?_
    exact actImp_of_map_eq (post_sym_active results ms)
  · exact killFold_stiff_pow _ _

/-! ## Claim C7 — the strain-energy proxy -/

theorem foldl_max_nonneg (xs : List ℚ) :
    ∀ a : ℚ, 0 ≤ a → (∀ x ∈ xs, 0 ≤ x) → xs.foldl max a = max a (xs.foldr max 0) := by
  induction xs with
  | nil => intro a ha _; simp [max_eq_left ha]
  | cons y ys ih =>
    intro a ha hall
    have hy : 0 ≤ y := hall y (by simp)
    rw [List.foldl_cons, List.foldr_cons,
      ih (max a y) (le_trans ha (le_max_left a y)) (fun x hx => hall x (by simp [hx]))]
    rw [max_assoc]

theorem max?_nonneg_eq_foldr (l : List ℚ) (h : ∀ x ∈ l, 0 ≤ x) :
    (match l.max? with | some m => m | none => (0 : ℚ)) = l.foldr max 0 := by
  cases l with
  | nil => rfl
  | cons x xs =>
    show xs.foldl max x = _
    rw [foldl_max_nonneg xs x (h x (by simp)) (fun y hy => h y (by simp [hy]))]
    rfl

/-- Claim C7: for every active member, the evaluation stage stores
`strain_energy = force² · length`, where the force is the absolute value of the
solver's scalar axial result, the maximum absolute value over a reported
distribution, and zero when the solver reports nothing for the member. -/
theorem c7_energy (results : ℕ → ElemRes) (ms : List Element) :
    (∀ el ∈ eval_energy results ms, el.active = true →
        el.force_val = get_force (results el.id) ∧
        el.strain_energy = get_force (results el.id) ^ 2 * el.length) ∧
    (∀ (x : ℚ) (nmin nmax : Option ℚ), get_force ⟨.scalar x, nmin, nmax⟩ = |x|) ∧
    (∀ (xs : List ℚ) (nmin nmax : Option ℚ), get_force ⟨.samples (xs.map some), nmin, nmax⟩ =
        (xs.map fun v => |v|).foldr max 0) ∧
    (∀ (nmin nmax : Option ℚ), get_force ⟨.missing, nmin, nmax⟩ = 0) ∧
    get_force ⟨.null, none, none⟩ = 0 := by
  refine ⟨?_, fun x nmin nmax => rfl, ?_, fun nmin nmax => abs_zero, by simp [get_force]⟩
  · intro el hel ha
    obtain ⟨a, _, rfl⟩ := List.mem_map.mp hel
    by_cases h : a.active
    · rw [if_pos h]
      exact ⟨rfl, rfl⟩
    · rw [if_neg h] at ha ⊢
      exact absurd ha h
  · intro xs nmin nmax
    show (match ((xs.map some).filterMap id |>.map fun v => |v|).max? with
          | some m => m | none => (0 : ℚ)) = _
    have hfm : (xs.map some).filterMap id = xs := by
      rw [List.filterMap_map]
      simp
    rw [hfm]
    exact max?_nonneg_eq_foldr _ (by
      intro x hx
      obtain ⟨v, _, rfl⟩ := List.mem_map.mp hx
      exact abs_nonneg v)

/-- Witness for C7: member 1 of `ms5` is active after evaluation with the `r5`
oracle, and its stored force and energy follow the formula. -/
theorem c7_witness :
    mkEl 1 (some 3) ∈ eval_energy r5 ms5 ∧
    (mkEl 1 (some 3)).force_val = get_force (r5 (mkEl 1 (some 3)).id) ∧
    (mkEl 1 (some 3)).strain_energy =
      get_force (r5 (mkEl 1 (some 3)).id) ^ 2 * (mkEl 1 (some 3)).length :=
  ⟨by decide, (c7_energy r5 ms5).1 _ (by decide) (by decide)⟩

/-! ## Claim C2 — mirrors are removed together with their partner -/

theorem deadAt_killFold_mono (sel : List Element) (st : List Element × (ℕ → ℚ × ℚ))
    (k : ℕ) (h : deadAt st.1 k = true) : deadAt (sel.foldl killStep st).1 k = true := by
  induction sel generalizing st with
  | nil => exact h
  | cons tgt rest ih =>
    rw [List.foldl_cons]
    exact ih _ (deadAt_killStep_mono st tgt k h)

/-- After the whole kill loop, each scheduled member is inactive and so is its
referenced mirror (with a truthy id), whatever their later positions in the loop. -/
theorem killFold_dead (sel : List Element) (st : List Element × (ℕ → ℚ × ℚ)) :
    ∀ e ∈ sel, deadAt (sel.foldl killStep st).1 e.id = true ∧
      ∀ j, e.mirror_id = some j → j ≠ 0 →
        deadAt (sel.foldl killStep st).1 j = true := by
  induction sel generalizing st with
  | nil => intro e he; cases he
  | cons tgt rest ih =>
    intro e he
    rw [List.foldl_cons]
    rcases List.mem_cons.mp he with rfl | hmem
    · refine ⟨deadAt_killFold_mono rest _ _ (deadAt_killStep_self st e), ?_⟩
      intro j hj hj0
      exact deadAt_killFold_mono rest _ _ (deadAt_killStep_mirror st e hj hj0)
    · exact ih _ e hmem

theorem mem_of_shape_eq {l1 l2 : List Element}
    (h : l1.map shapeOf = l2.map shapeOf) (a : Element) (ha : a ∈ l1) :
    ∃ b ∈ l2, shapeOf a = shapeOf b := by
  have hm : shapeOf a ∈ l2.map shapeOf := h ▸ List.mem_map_of_mem shapeOf ha
  obtain ⟨b, hb, he⟩ := List.mem_map.mp hm
  exact ⟨b, hb, he.symm⟩

theorem selected_mem_post_sym (results : ℕ → ElemRes) (ms : List Element) (ratio : ℚ) :
    ∀ el ∈ selected_of results ms ratio, el ∈ post_sym results ms := by
  intro el hsel
  have h1 : el ∈ sorted_active results ms := List.mem_of_mem_take hsel
  have h2 : el ∈ activesAfter results ms :=
    (List.perm_insertionSort energyLe (activesAfter results ms)).subset h1
  exact List.mem_of_mem_filter h2

/-- Claim C2: in every pruning pass, each member scheduled for removal ends the
pass deactivated, and so does the member its `mirror_id` points at — regardless
of the mirror's own rank.  (The hypothesis rules out a mirror reference `0`,
which Python truthiness would skip; `initialize_structure` ids start at 1.) -/
theorem c2_mirror_removed (results : ℕ → ElemRes) (ms : List Element)
    (stiff : ℕ → ℚ × ℚ) (ratio : ℚ)
    (hmz : ∀ el ∈ ms, el.mirror_id ≠ some 0) :
    ∀ el ∈ selected_of results ms ratio,
      deadAt (run_iteration results ms stiff ratio).members el.id = true ∧
      ∀ j, el.mirror_id = some j →
        deadAt (run_iteration results ms stiff ratio).members j = true := by
  intro el hsel
  have hmem : el ∈ post_sym results ms := selected_mem_post_sym results ms ratio el hsel
  have hmz2 : el.mirror_id ≠ some 0 := by
    obtain ⟨b, hb, hsh⟩ := mem_of_shape_eq (post_sym_shape results ms) el hmem
    have hmir : el.mirror_id = b.mirror_id := congrArg (fun t => t.2.2) hsh
    rw [hmir]; exact hmz b hb
  have hrun : (run_iteration results ms stiff ratio).members =
      ((selected_of results ms ratio).foldl killStep (post_sym results ms, stiff)).1 := rfl
  rw [hrun]
  refine ⟨(killFold_dead _ _ el hsel).1, fun j hj => ?_⟩
  have hj0 : j ≠ 0 := fun h0 => hmz2 (h0 ▸ hj)
  exact (killFold_dead _ _ el hsel).2 j hj hj0

/-- Witness for C2: in the 16-member state `ms16`, the weakest member (id 1,
mirrored by 16) is scheduled, and after the pass both 1 and 16 are inactive. -/
theorem c2_witness :
    (∀ el ∈ ms16, el.mirror_id ≠ some 0) ∧
    deadAt (run_iteration r16 ms16 stiff0 (1/50)).members 1 = true ∧
    deadAt (run_iteration r16 ms16 stiff0 (1/50)).members 16 = true := by
  refine ⟨by decide, ?_, ?_⟩
  · exact (c2_mirror_removed r16 ms16 stiff0 (1/50) (by decide)
      (mkEl 1 (some 16)) (by decide)).1
  · exact (c2_mirror_removed r16 ms16 stiff0 (1/50) (by decide)
      (mkEl 1 (some 16)) (by decide)).2 16 rfl

/-! ## Claim C4 — the removal count -/

theorem truncQ_eq_floor {q : ℚ} (h : 0 ≤ q) : truncQ q = ⌊q⌋ := by
  rw [truncQ, if_pos h, Rat.floor_def]
  have hnum : 0 ≤ q.num := Rat.num_nonneg.mpr h
  rw [show ((q.num.toNat / q.den : ℕ) : ℤ) = ((q.num.toNat : ℤ) / (q.den : ℤ)) from
    Int.ofNat_tdiv _ _, Int.toNat_of_nonneg hnum]

theorem count_to_remove_lt15 {n : ℕ} (h : n < 15) (ratio : ℚ) :
    count_to_remove n ratio = 0 := by
  show (if n < 15 then (0 : ℤ)
        else if truncQ ((n : ℚ) * ratio) < 1 then 1 else truncQ ((n : ℚ) * ratio)).toNat = 0
  rw [if_pos h]
  rfl

theorem count_to_remove_ge15 {n : ℕ} (h : 15 ≤ n) {ratio : ℚ} (hr : 0 ≤ ratio) :
    count_to_remove n ratio = max 1 (⌊(n : ℚ) * ratio⌋).toNat := by
  show (if n < 15 then (0 : ℤ)
        else if truncQ ((n : ℚ) * ratio) < 1 then 1 else truncQ ((n : ℚ) * ratio)).toNat = _
  rw [if_neg (by omega)]
  have h0 : (0 : ℚ) ≤ (n : ℚ) * ratio := mul_nonneg (by positivity) hr
  rw [truncQ_eq_floor h0]
  have hf : 0 ≤ ⌊(n : ℚ) * ratio⌋ := Int.floor_nonneg.mpr h0
  by_cases hc : ⌊(n : ℚ) * ratio⌋ < 1
  · rw [if_pos hc]; omega
  · rw [if_neg hc]; omega

theorem sorted_active_length (results : ℕ → ElemRes) (ms : List Element) :
    (sorted_active results ms).length = (activesAfter results ms).length :=
  (List.perm_insertionSort energyLe (activesAfter results ms)).length_eq

theorem selected_of_length (results : ℕ → ElemRes) (ms : List Element) {ratio : ℚ}
    (hr0 : 0 ≤ ratio) (hr1 : ratio ≤ 1) :
    (selected_of results ms ratio).length =
      count_to_remove (activesAfter results ms).length ratio := by
  rw [selected_of, List.length_take, sorted_active_length]
  rcases lt_or_le (activesAfter results ms).length 15 with h | h
  · rw [count_to_remove_lt15 h]; simp
  · rw [count_to_remove_ge15 h hr0]
    have h1 : ⌊((activesAfter results ms).length : ℚ) * ratio⌋ ≤
        ((activesAfter results ms).length : ℤ) := by
      have hle : ((activesAfter results ms).length : ℚ) * ratio ≤
          ((activesAfter results ms).length : ℚ) := by
        nlinarith [Nat.cast_nonneg (α := ℚ) (activesAfter results ms).length]
      calc ⌊((activesAfter results ms).length : ℚ) * ratio⌋
          ≤ ⌊((activesAfter results ms).length : ℚ)⌋ := Int.floor_le_floor hle
        _ = ((activesAfter results ms).length : ℤ) := Int.floor_natCast _
    have h2 : max 1 (⌊((activesAfter results ms).length : ℚ) * ratio⌋).toNat ≤
        (activesAfter results ms).length := by omega
    exact Nat.min_eq_left h2

/-- Claim C4 (amended): the pruner sorts the active members ascending by strain
energy and schedules the first `count_to_remove n r` of them, where the count is
`max(1, ⌊n·r⌋)` — except that it is forced to zero when the active count is
*already below* the safety floor 15 (not, as the claim says, when removal would
bring it below 15). -/
theorem c4_amended (results : ℕ → ElemRes) (ms : List Element) {ratio : ℚ}
    (hr0 : 0 ≤ ratio) (hr1 : ratio ≤ 1) :
    List.Sorted energyLe (sorted_active results ms) ∧
    selected_of results ms ratio =
      (sorted_active results ms).take
        (count_to_remove (activesAfter results ms).length ratio) ∧
    ((activesAfter results ms).length < 15 →
      count_to_remove (activesAfter results ms).length ratio = 0) ∧
    (15 ≤ (activesAfter results ms).length →
      count_to_remove (activesAfter results ms).length ratio =
        max 1 (⌊((activesAfter results ms).length : ℚ) * ratio⌋).toNat) ∧
    (selected_of results ms ratio).length =
      count_to_remove (activesAfter results ms).length ratio :=
  ⟨List.sorted_insertionSort energyLe _, rfl,
   fun h => count_to_remove_lt15 h ratio,
   fun h => count_to_remove_ge15 h hr0,
   selected_of_length results ms hr0 hr1⟩

/-- Witness for C4's amended statement, at the 16-member state and ratio 0.02. -/
theorem c4_witness :
    (0 : ℚ) ≤ 1/50 ∧ (1/50 : ℚ) ≤ 1 ∧
    (selected_of r16 ms16 (1/50)).length =
      count_to_remove (activesAfter r16 ms16).length (1/50) :=
  ⟨by norm_num, by norm_num,
   (c4_amended r16 ms16 (by norm_num) (by norm_num)).2.2.2.2⟩

/-- Claim C4 counterexample: with exactly 15 active members and ratio 0.02 the
pruner still removes one member — `15 - 1 = 14 < 15` — although the claim's
exception clause ("whenever removal would bring the active count below the
safety floor of 15") would force the count to zero on this input. -/
theorem c4_counterexample :
    (activesAfter r15 ms15).length = 15 ∧
    (selected_of r15 ms15 (1/50)).length = 1 ∧
    count_to_remove 15 (1/50) = 1 ∧
    count_to_remove_spec 15 (1/50) = 0 :=
  ⟨by decide, by decide, by decide, by decide⟩

/-! ## Claim C3 — convergence exactly at the first count below 25 -/

theorem run_loop_error (oracle : ℕ → Except Unit (ℕ → ElemRes)) (ratio : ℚ)
    (st : LoopState) (iter fuel : ℕ) (e : Unit) (h : oracle 0 = .error e) :
    run_loop oracle ratio st iter (fuel + 1) = (iter + 1, .failed) := by
  rw [run_loop, h]

theorem run_loop_ok_conv (oracle : ℕ → Except Unit (ℕ → ElemRes)) (ratio : ℚ)
    (st : LoopState) (iter fuel : ℕ) (res : ℕ → ElemRes) (h : oracle 0 = .ok res)
    (hc : reported_count res ratio st < 25) :
    run_loop oracle ratio st iter (fuel + 1) = (iter + 1, .converged) := by
  rw [run_loop, h]
  exact if_pos hc

theorem run_loop_ok_cont (oracle : ℕ → Except Unit (ℕ → ElemRes)) (ratio : ℚ)
    (st : LoopState) (iter fuel : ℕ) (res : ℕ → ElemRes) (h : oracle 0 = .ok res)
    (hc : ¬ reported_count res ratio st < 25) :
    run_loop oracle ratio st iter (fuel + 1) =
      run_loop (fun i => oracle (i + 1)) ratio (next_state res ratio st) (iter + 1) fuel := by
  rw [run_loop, h]
  exact if_neg hc

theorem run_loop_converged_lt (oracle : ℕ → Except Unit (ℕ → ElemRes)) (ratio : ℚ)
    (st : LoopState) (iter fuel m : ℕ)
    (h : run_loop oracle ratio st iter fuel = (m, .converged)) : iter < m := by
  induction fuel generalizing oracle st iter with
  | zero => simp [run_loop] at h
  | succ f ih =>
    cases ho : oracle 0 with
    | error e => rw [run_loop_error oracle ratio st iter f e ho] at h; simp at h
    | ok res =>
      by_cases hc : reported_count res ratio st < 25
      · rw [run_loop_ok_conv oracle ratio st iter f res ho hc] at h
        simp at h
        omega
      · rw [run_loop_ok_cont oracle ratio st iter f res ho hc] at h
        have := ih _ _ _ h
        omega

theorem state_at_shift (oracle : ℕ → Except Unit (ℕ → ElemRes)) (ratio : ℚ)
    (st : LoopState) (res : ℕ → ElemRes) (h0 : oracle 0 = .ok res) (k : ℕ) :
    state_at (fun i => oracle (i + 1)) ratio (next_state res ratio st) k =
      state_at oracle ratio st (k + 1) := by
  induction k with
  | zero => simp [state_at, oracleRes, h0]
  | succ k ih => rw [state_at, ih]; rfl

theorem count_at_shift (oracle : ℕ → Except Unit (ℕ → ElemRes)) (ratio : ℚ)
    (st : LoopState) (res : ℕ → ElemRes) (h0 : oracle 0 = .ok res) (k : ℕ) :
    count_at (fun i => oracle (i + 1)) ratio (next_state res ratio st) k =
      count_at oracle ratio st (k + 1) := by
  unfold count_at
  rw [state_at_shift oracle ratio st res h0 k]

/-- Claim C3: the loop reaches `Converged` at iteration `k + 1` exactly when the
first `k` frames all solved and reported counts of at least 25 and frame `k`
reported a count below 25 — it converges at the first reported count below the
floor, never earlier and never later. -/
theorem c3_converged_iff (oracle : ℕ → Except Unit (ℕ → ElemRes)) (ratio : ℚ)
    (st : LoopState) (fuel k iter : ℕ) :
    run_loop oracle ratio st iter fuel = (iter + k + 1, .converged) ↔
      (k < fuel ∧ (∀ i ≤ k, ∃ r, oracle i = .ok r) ∧
       (∀ i < k, 25 ≤ count_at oracle ratio st i) ∧
       count_at oracle ratio st k < 25) := by
  induction fuel generalizing oracle st iter k with
  | zero => simp [run_loop]
  | succ f ih =>
    cases ho : oracle 0 with
    | error e =>
      rw [run_loop_error oracle ratio st iter f e ho]
      constructor
      · intro h; simp at h
      · rintro ⟨-, hok, -, -⟩
        obtain ⟨r, hr⟩ := hok 0 (Nat.zero_le k)
        rw [ho] at hr
        cases hr
    | ok res =>
      have hc0 : count_at oracle ratio st 0 = reported_count res ratio st := by
        simp [count_at, state_at, oracleRes, ho]
      by_cases hc : reported_count res ratio st < 25
      · rw [run_loop_ok_conv oracle ratio st iter f res ho hc]
        constructor
        · intro h
          have hk : k = 0 := by
            have := congrArg Prod.fst h
            simp at this
            omega
          subst hk
          exact ⟨Nat.succ_pos f,
            fun i hi => by rw [Nat.le_zero.mp hi]; exact ⟨res, ho⟩,
            fun i hi => absurd hi (Nat.not_lt_zero i),
            by rw [hc0]; exact hc⟩
        · rintro ⟨-, -, hge, -⟩
          rcases Nat.eq_zero_or_pos k with rfl | hk
          · simp
          · have := hge 0 hk
            rw [hc0] at this
            omega
      · rw [run_loop_ok_cont oracle ratio st iter f res ho hc]
        rcases Nat.eq_zero_or_pos k with rfl | hk
        · constructor
          · intro h
            have := run_loop_converged_lt _ _ _ _ _ _ h
            omega
          · rintro ⟨-, -, -, hlt⟩
            rw [hc0] at hlt
            omega
        · obtain ⟨k', rfl⟩ := Nat.exists_eq_succ_of_ne_zero (Nat.pos_iff_ne_zero.mp hk)
          rw [show iter + (k' + 1) + 1 = (iter + 1) + k' + 1 by omega]
          rw [ih (fun i => oracle (i + 1)) (next_state res ratio st) k' (iter + 1)]
          constructor
          · rintro ⟨hf, hok, hge, hlt⟩
            refine ⟨by omega, ?_, ?_, ?_⟩
            · intro i hi
              cases i with
              | zero => exact ⟨res, ho⟩
              | succ i => exact hok i (by omega)
            · intro i hi
              cases i with
              | zero => rw [hc0]; omega
              | succ i =>
                rw [← count_at_shift oracle ratio st res ho i]
                exact hge i (by omega)
            · rw [← count_at_shift oracle ratio st res ho k']
              exact hlt
          · rintro ⟨hf, hok, hge, hlt⟩
            refine ⟨by omega, ?_, ?_, ?_⟩
            · intro i hi
              exact hok (i + 1) (by omega)
            · intro i hi
              rw [count_at_shift oracle ratio st res ho i]
              exact hge (i + 1) (by omega)
            · rw [count_at_shift oracle ratio st res ho k']
              exact hlt

/-- Witness for C3: with no members at all, the first frame reports 0 (< 25) and
the loop converges at iteration 1. -/
theorem c3_witness :
    run_loop oracle0 (1/50) ([], stiff0) 0 1 = (1, .converged) := by
  have h := (c3_converged_iff oracle0 (1/50) ([], stiff0) 1 0 0).mpr
    ⟨Nat.zero_lt_one, fun i _ => ⟨_, rfl⟩, fun i hi => absurd hi (Nat.not_lt_zero i),
     by decide⟩
  simpa using h

/-! ## Claim C6 — the symmetry mapping -/

theorem buildMembers_ids_nodup (nodes : List Coord) (maxDist : ℚ) :
    ((buildMembers nodes maxDist).map (·.id)).Nodup := by
  unfold buildMembers
  rw [List.map_map]
  show (List.map (fun ke : ℕ × (Coord × Coord) => ke.1 + 1) _).Nodup
  have h2 : (List.map (fun ke : ℕ × (Coord × Coord) => ke.1 + 1)
      ((pairsOf nodes).filter fun pq => memberFilter maxDist pq.1 pq.2).enum) =
      ((((pairsOf nodes).filter fun pq =>
        memberFilter maxDist pq.1 pq.2).enum.map Prod.fst).map (· + 1)) := by
    rw [List.map_map]; rfl
  rw [h2, List.enum_map_fst]
  exact (List.nodup_range _).map (add_left_injective 1)

theorem assignMirrors_mem (span : ℚ) (els : List MeshElement) {p : MeshElement}
    (hp : p ∈ els) : ∃ tw ∈ assignMirrors span els,
      tw.id = p.id ∧ tw.mid_x = p.mid_x ∧ tw.mid_y = p.mid_y := by
  unfold assignMirrors
  refine ⟨_, List.mem_map_of_mem _ hp, ?_⟩
  by_cases h : p.mid_x < span / 2 <;> simp [h]

/-- Claim C6: in the built structure, every assigned mirror reference points at a
member strictly right of the centerline whose midpoint is within tolerance 0.1
(squared: `1/100`) of the exact reflection `(span − mid_x, mid_y)` of the
member's midpoint; no member is its own mirror; and members at or right of the
centerline get no mirror. -/
theorem c6_mirror_map (span height : ℚ) :
    ∀ el ∈ initialize_structure span height,
      (∀ j, el.mirror_id = some j →
        j ≠ el.id ∧
        ∃ tw ∈ initialize_structure span height, tw.id = j ∧
          span / 2 < tw.mid_x ∧
          (tw.mid_x - (span - el.mid_x))^2 + (tw.mid_y - el.mid_y)^2 < 1/100) ∧
      (span / 2 ≤ el.mid_x → el.mirror_id = none) := by
  intro el hel
  have hnodup : ((buildMembers (genNodes span height) (span / 8 * 1.6)).map (·.id)).Nodup :=
    buildMembers_ids_nodup _ _
  unfold initialize_structure assignMirrors at hel
  obtain ⟨el0, hel0, rfl⟩ := List.mem_map.mp hel
  by_cases hl : el0.mid_x < span / 2
  · rw [if_pos hl]
    constructor
    · intro j hj
      have hj2 : findTwin (buildMembers (genNodes span height) (span / 8 * 1.6))
          (span / 2) (span - el0.mid_x) el0.mid_y = some j := hj
      unfold findTwin at hj2
      obtain ⟨p, hpfind, hpid⟩ := Option.map_eq_some'.mp hj2
      have hpmem := List.mem_of_find?_eq_some hpfind
      have hppred := List.find?_some hpfind
      rw [Bool.and_eq_true, decide_eq_true_iff, decide_eq_true_iff] at hppred
      obtain ⟨hpc, hptol⟩ := hppred
      constructor
      · intro hje
        have hpe : p = el0 :=
          List.inj_on_of_nodup_map hnodup hpmem hel0 (by rw [hpid]; exact hje)
        rw [hpe] at hpc
        exact absurd hl (not_lt.mpr (le_of_lt hpc))
      · obtain ⟨tw, htw, htwid, htwx, htwy⟩ :=
          assignMirrors_mem span (buildMembers (genNodes span height) (span / 8 * 1.6)) hpmem
        refine ⟨tw, htw, by rw [htwid, hpid], ?_, ?_⟩
        · rw [htwx]; exact hpc
        · rw [htwx, htwy]
          simpa using hptol
    · intro hge
      exact absurd hge (not_le.mpr hl)
  · rw [if_neg hl]
    refine ⟨fun j hj => ?_, fun _ => rfl⟩
    cases hj

/-- Witness for C6: the first member of the default 16×5 mesh carries mirror 105,
which is not itself, sits right of center, and lies within tolerance of the
reflection. -/
theorem c6_witness :
    el1mesh ∈ initialize_structure 16 5 ∧
    (105 ≠ el1mesh.id ∧
     ∃ tw ∈ initialize_structure 16 5, tw.id = 105 ∧
       (16 : ℚ) / 2 < tw.mid_x ∧
       (tw.mid_x - (16 - el1mesh.mid_x))^2 + (tw.mid_y - el1mesh.mid_y)^2 < 1/100) :=
  ⟨by decide, (c6_mirror_map 16 5 el1mesh (by decide)).1 105 rfl⟩

/-! ## Claim C8 — the ground structure -/

theorem distSq_comm (p q : Coord) : distSq p q = distSq q p := by
  unfold distSq; ring

theorem memberFilter_unord {md : ℚ} {ab : Coord × Coord} {p q : Coord}
    (h : unordEq ab (p, q)) : memberFilter md ab.1 ab.2 = memberFilter md p q := by
  rcases h with ⟨h1, h2⟩ | ⟨h1, h2⟩ <;> rw [h1, h2]
  rw [memberFilter, memberFilter, distSq_comm]

theorem pairsOf_mem {l : List Coord} {ab : Coord × Coord} (h : ab ∈ pairsOf l) :
    ab.1 ∈ l ∧ ab.2 ∈ l := by
  induction l with
  | nil => cases h
  | cons x xs ih =>
    rw [pairsOf, List.mem_append] at h
    rcases h with h | h
    · obtain ⟨y, hy, rfl⟩ := List.mem_map.mp h
      exact ⟨List.mem_cons_self x xs, List.mem_cons_of_mem x hy⟩
    · obtain ⟨h1, h2⟩ := ih h
      exact ⟨List.mem_cons_of_mem x h1, List.mem_cons_of_mem x h2⟩

theorem countP_eq_one_of_nodup {α : Type} [DecidableEq α] {l : List α} (hl : l.Nodup)
    {a : α} (ha : a ∈ l) : l.countP (fun y => decide (y = a)) = 1 := by
  induction l with
  | nil => cases ha
  | cons x xs ih =>
    obtain ⟨hxnot, hxs⟩ := List.nodup_cons.mp hl
    rw [List.countP_cons]
    rcases List.mem_cons.mp ha with rfl | hmem
    · have hz : xs.countP (fun y => decide (y = a)) = 0 :=
        List.countP_eq_zero.mpr fun y hy => by
          simp only [decide_eq_true_iff]
          exact fun he => hxnot (he ▸ hy)
      simp [hz]
    · have hxa : ¬ (x = a) := fun he => hxnot (he ▸ hmem)
      rw [ih hxs hmem]
      simp [hxa]

theorem pairsOf_countP_zero_left {xs : List Coord} {p q : Coord} (hp : p ∉ xs) :
    (pairsOf xs).countP (fun ab => decide (unordEq ab (p, q))) = 0 := by
  refine List.countP_eq_zero.mpr fun ab hab => ?_
  obtain ⟨h1, h2⟩ := pairsOf_mem hab
  simp only [decide_eq_true_iff]
  rintro (⟨e1, -⟩ | ⟨-, e2⟩)
  · exact hp ((show ab.1 = p from e1) ▸ h1)
  · exact hp ((show ab.2 = p from e2) ▸ h2)

theorem pairsOf_countP_zero_right {xs : List Coord} {p q : Coord} (hq : q ∉ xs) :
    (pairsOf xs).countP (fun ab => decide (unordEq ab (p, q))) = 0 := by
  refine List.countP_eq_zero.mpr fun ab hab => ?_
  obtain ⟨h1, h2⟩ := pairsOf_mem hab
  simp only [decide_eq_true_iff]
  rintro (⟨-, e2⟩ | ⟨e1, -⟩)
  · exact hq ((show ab.2 = q from e2) ▸ h2)
  · exact hq ((show ab.1 = q from e1) ▸ h1)

/-- With distinct nodes, every unordered target pair of distinct nodes is hit by
exactly one enumerated combination. -/
theorem pairsOf_countP_unord {l : List Coord} (hl : l.Nodup) {p q : Coord}
    (hp : p ∈ l) (hq : q ∈ l) (hpq : p ≠ q) :
    (pairsOf l).countP (fun ab => decide (unordEq ab (p, q))) = 1 := by
  induction l with
  | nil => cases hp
  | cons x xs ih =>
    obtain ⟨hxnot, hxs⟩ := List.nodup_cons.mp hl
    rw [pairsOf, List.countP_append]
    rcases List.mem_cons.mp hp with rfl | hpmem
    · have hq2 : q ∈ xs := by
        rcases List.mem_cons.mp hq with h | h
        · exact absurd h.symm hpq
        · exact h
      have hmap : (xs.map fun y => (p, y)).countP
          (fun ab => decide (unordEq ab (p, q))) = 1 := by
        rw [List.countP_map]
        have hcong : ∀ y ∈ xs,
            (((fun ab => decide (unordEq ab (p, q))) ∘ fun y => (p, y)) y = true ↔
              (fun y => decide (y = q)) y = true) := by
          intro y hy
          simp only [Function.comp_apply, decide_eq_true_iff]
          unfold unordEq
          constructor
          · rintro (⟨-, e⟩ | ⟨e1, -⟩)
            · exact e
            · exact absurd ((show p = q from e1).symm ▸ hq2) hxnot
          · rintro rfl
            exact Or.inl ⟨rfl, rfl⟩
        rw [List.countP_congr hcong]
        exact countP_eq_one_of_nodup hxs hq2
      rw [hmap, pairsOf_countP_zero_left hxnot]
    · rcases List.mem_cons.mp hq with rfl | hqmem
      · have hmap : (xs.map fun y => (q, y)).countP
            (fun ab => decide (unordEq ab (p, q))) = 1 := by
          rw [List.countP_map]
          have hcong : ∀ y ∈ xs,
              (((fun ab => decide (unordEq ab (p, q))) ∘ fun y => (q, y)) y = true ↔
                (fun y => decide (y = p)) y = true) := by
            intro y hy
            simp only [Function.comp_apply, decide_eq_true_iff]
            unfold unordEq
            constructor
            · rintro (⟨e1, -⟩ | ⟨-, e⟩)
              · exact absurd (show q = p from e1).symm hpq
              · exact e
            · rintro rfl
              exact Or.inr ⟨rfl, rfl⟩
          rw [List.countP_congr hcong]
          exact countP_eq_one_of_nodup hxs hpmem
        rw [hmap, pairsOf_countP_zero_right hxnot]
      · have hmap : (xs.map fun y => (x, y)).countP
            (fun ab => decide (unordEq ab (p, q))) = 0 := by
          rw [List.countP_map]
          refine List.countP_eq_zero.mpr fun y hy => ?_
          simp only [Function.comp_apply, decide_eq_true_iff]
          rintro (⟨e1, -⟩ | ⟨e1, -⟩)
          · exact hxnot ((show x = p from e1).symm ▸ hpmem)
          · exact hxnot ((show x = q from e1).symm ▸ hqmem)
        rw [hmap, ih hxs hpmem hqmem]

theorem pairsOf_pairwise {l : List Coord} (hl : l.Nodup) :
    (pairsOf l).Pairwise fun a b => ¬ unordEq a b := by
  induction l with
  | nil => exact List.Pairwise.nil
  | cons x xs ih =>
    obtain ⟨hxnot, hxs⟩ := List.nodup_cons.mp hl
    rw [pairsOf, List.pairwise_append]
    refine ⟨?_, ih hxs, ?_⟩
    · rw [List.pairwise_map]
      refine List.Pairwise.imp_of_mem ?_ hxs
      intro a b ha hb hne
      rintro (⟨-, e2⟩ | ⟨e1, -⟩)
      · exact hne e2
      · exact hxnot ((show x = b from e1).symm ▸ hb)
    · intro a ha b hb
      obtain ⟨y, hy, rfl⟩ := List.mem_map.mp ha
      obtain ⟨hb1, hb2⟩ := pairsOf_mem hb
      rintro (⟨e1, -⟩ | ⟨e1, -⟩)
      · exact hxnot ((show x = b.1 from e1).symm ▸ hb1)
      · exact hxnot ((show x = b.2 from e1).symm ▸ hb2)

/-- Claim C8: for a valid, collision-free grid, the ground structure carries
exactly one member per qualifying unordered node pair, no duplicate endpoint
pairs, and every member's squared length within `(ε², max_dist²]`. -/
theorem c8_ground_structure (span height : ℚ)
    (hn : (genNodes span height).Nodup) : groundStructureOk span height := by
  unfold groundStructureOk
  refine ⟨?_, ?_, ?_⟩
  · intro m hm
    unfold buildMembers at hm
    obtain ⟨ke, hke, rfl⟩ := List.mem_map.mp hm
    have h2 : ke.2 ∈ (pairsOf (genNodes span height)).filter
        (fun pq => memberFilter (span / 8 * 1.6) pq.1 pq.2) := by
      have h3 := List.mem_map_of_mem Prod.snd hke
      rwa [List.enum_map_snd] at h3
    have h3 := List.of_mem_filter h2
    rw [memberFilter, Bool.and_eq_true, Bool.and_eq_true,
      decide_eq_true_iff, decide_eq_true_iff, decide_eq_true_iff] at h3
    exact ⟨h3.1.1, h3.2⟩
  · unfold buildMembers
    rw [List.pairwise_map]
    have hp2 : ((pairsOf (genNodes span height)).filter
        (fun pq => memberFilter (span / 8 * 1.6) pq.1 pq.2)).Pairwise
        (fun a b => ¬ unordEq a b) := (pairsOf_pairwise hn).filter _
    have hp3 : (((pairsOf (genNodes span height)).filter
        (fun pq => memberFilter (span / 8 * 1.6) pq.1 pq.2)).enum.map
          Prod.snd).Pairwise (fun a b => ¬ unordEq a b) := by
      rw [List.enum_map_snd]; exact hp2
    exact List.pairwise_map.mp hp3
  · intro p hp q hq hne hfil
    unfold buildMembers
    rw [List.countP_map]
    have e2 : ((pairsOf (genNodes span height)).filter
        (fun pq => memberFilter (span / 8 * 1.6) pq.1 pq.2)).enum.countP
          (fun ke : ℕ × (Coord × Coord) => decide (unordEq ke.2 (p, q))) =
        (((pairsOf (genNodes span height)).filter
          (fun pq => memberFilter (span / 8 * 1.6) pq.1 pq.2)).enum.map
            Prod.snd).countP (fun ab => decide (unordEq ab (p, q))) := by
      rw [List.countP_map]; rfl
    have e1 : List.countP
        ((fun m => decide (unordEq (m.p1, m.p2) (p, q))) ∘ fun ke : ℕ × (Coord × Coord) =>
          ({ id := ke.1 + 1, p1 := ke.2.1, p2 := ke.2.2,
             mid_x := (ke.2.1.1 + ke.2.2.1) / 2, mid_y := (ke.2.1.2 + ke.2.2.2) / 2,
             len_sq := distSq ke.2.1 ke.2.2, active := true, strain_energy := 0,
             mirror_id := none } : MeshElement))
        ((pairsOf (genNodes span height)).filter
          (fun pq => memberFilter (span / 8 * 1.6) pq.1 pq.2)).enum =
      List.countP (fun ke : ℕ × (Coord × Coord) => decide (unordEq ke.2 (p, q)))
        ((pairsOf (genNodes span height)).filter
          (fun pq => memberFilter (span / 8 * 1.6) pq.1 pq.2)).enum :=
      List.countP_congr (fun a _ => Iff.rfl)
    rw [e1, e2, List.enum_map_snd, List.countP_filter]
    have e3 : ∀ ab ∈ pairsOf (genNodes span height),
        ((decide (unordEq ab (p, q)) && memberFilter (span / 8 * 1.6) ab.1 ab.2) = true ↔
          decide (unordEq ab (p, q)) = true) := by
      intro ab _
      by_cases h : unordEq ab (p, q)
      · rw [decide_eq_true h, Bool.true_and, memberFilter_unord h, hfil]
      · rw [decide_eq_false h, Bool.false_and]
    rw [List.countP_congr e3]
    exact pairsOf_countP_unord hn hp hq hne

/-- Witness for C8 at the default 16×5 grid, whose 36 node coordinates are
pairwise distinct. -/
theorem c8_witness :
    (genNodes 16 5).Nodup ∧ groundStructureOk 16 5 :=
  ⟨by decide, c8_ground_structure 16 5 (by decide)⟩

/-! ## Claim C5 — the symmetry-averaging pass -/

theorem findId_mem {ms : List Element} {i : ℕ} {el : Element}
    (h : findId ms i = some el) : el ∈ ms := by
  induction ms with
  | nil => cases h
  | cons a t ih =>
    unfold findId at h
    by_cases ha : a.id = i
    · rw [if_pos ha] at h
      cases h
      exact List.mem_cons_self _ _
    · rw [if_neg ha] at h
      exact List.mem_cons_of_mem a (ih h)

theorem findId_id {ms : List Element} {i : ℕ} {el : Element}
    (h : findId ms i = some el) : el.id = i := by
  induction ms with
  | nil => cases h
  | cons a t ih =>
    unfold findId at h
    by_cases ha : a.id = i
    · rw [if_pos ha] at h
      cases h
      exact ha
    · rw [if_neg ha] at h
      exact ih h

theorem findId_of_mem_nodup {ms : List Element} (hn : (ms.map (·.id)).Nodup)
    {el : Element} (hmem : el ∈ ms) : findId ms el.id = some el := by
  induction ms with
  | nil => cases hmem
  | cons a t ih =>
    obtain ⟨hanot, ht⟩ := List.nodup_cons.mp hn
    rcases List.mem_cons.mp hmem with rfl | hm
    · unfold findId
      rw [if_pos rfl]
    · unfold findId
      have hne : a.id ≠ el.id := fun he =>
        hanot (by
          show a.id ∈ t.map (·.id)
          rw [he]
          exact List.mem_map_of_mem _ hm)
      rw [if_neg hne]
      exact ih ht hm

theorem ids_of_shape {l1 l2 : List Element}
    (h : l1.map shapeOf = l2.map shapeOf) : l1.map (·.id) = l2.map (·.id) := by
  have h2 := congrArg (List.map Prod.fst) h
  rw [List.map_map, List.map_map] at h2
  exact h2

theorem findId_shape {l1 l2 : List Element} (h : l1.map shapeOf = l2.map shapeOf)
    (k : ℕ) : (findId l1 k).map shapeOf = (findId l2 k).map shapeOf := by
  induction l1 generalizing l2 with
  | nil => cases l2 with
    | nil => rfl
    | cons => simp at h
  | cons a t ih =>
    cases l2 with
    | nil => simp at h
    | cons b t2 =>
      simp only [List.map_cons, List.cons.injEq] at h
      obtain ⟨hab, ht⟩ := h
      have hid : a.id = b.id := congrArg Prod.fst hab
      unfold findId
      by_cases hk : a.id = k
      · rw [if_pos hk, if_pos (hid ▸ hk)]
        simpa using hab
      · rw [if_neg hk, if_neg (hid ▸ hk)]
        exact ih ht

theorem mirrorAt_of_shape {l1 l2 : List Element}
    (h : l1.map shapeOf = l2.map shapeOf) (k : ℕ) :
    mirrorAt l1 k = mirrorAt l2 k := by
  unfold mirrorAt
  have hf := findId_shape h k
  cases h1 : findId l1 k with
  | none =>
    cases h2 : findId l2 k with
    | none => rfl
    | some b =>
      rw [h1, h2, Option.map_none', Option.map_some'] at hf
      cases hf
  | some a =>
    cases h2 : findId l2 k with
    | none =>
      rw [h1, h2, Option.map_some', Option.map_none'] at hf
      cases hf
    | some b =>
      rw [h1, h2, Option.map_some', Option.map_some', Option.some.injEq] at hf
      exact congrArg (fun x => x.2.2) hf

theorem activeIds_of_shape {l1 l2 : List Element}
    (h : l1.map shapeOf = l2.map shapeOf) : activeIds l1 = activeIds l2 := by
  unfold activeIds
  induction l1 generalizing l2 with
  | nil => cases l2 with
    | nil => rfl
    | cons => simp at h
  | cons a t ih =>
    cases l2 with
    | nil => simp at h
    | cons b t2 =>
      simp only [List.map_cons, List.cons.injEq] at h
      obtain ⟨hab, ht⟩ := h
      have hid : a.id = b.id := congrArg Prod.fst hab
      have hac : a.active = b.active := congrArg (fun x => x.2.1) hab
      rw [List.filter_cons, List.filter_cons, hac]
      by_cases hb : b.active = true
      · simp only [hb, if_true, List.map_cons]
        rw [hid, ih ht]
      · simp only [hb, if_false, Bool.false_eq_true]
        exact ih ht

theorem mirrorTargetsBlank_of_shape {l1 l2 : List Element}
    (h : l1.map shapeOf = l2.map shapeOf) (ht : mirrorTargetsBlank l2) :
    mirrorTargetsBlank l1 := by
  intro el hel tw htw he
  obtain ⟨el0, hel0, hsel⟩ := mem_of_shape_eq h el hel
  obtain ⟨tw0, htw0, hstw⟩ := mem_of_shape_eq h tw htw
  have h1 : el.mirror_id = el0.mirror_id := congrArg (fun x => x.2.2) hsel
  have h2 : tw.id = tw0.id := congrArg Prod.fst hstw
  have h3 : tw.mirror_id = tw0.mirror_id := congrArg (fun x => x.2.2) hstw
  rw [h3]
  exact ht el0 hel0 tw0 htw0 (by rw [← h1, ← h2]; exact he)

theorem mirrorInjOnActive_of_shape {l1 l2 : List Element}
    (h : l1.map shapeOf = l2.map shapeOf) (hn : (l1.map (·.id)).Nodup)
    (hi : mirrorInjOnActive l2) : mirrorInjOnActive l1 := by
  intro a ha b hb haa hba hne heq
  obtain ⟨a0, ha0, hsa⟩ := mem_of_shape_eq h a ha
  obtain ⟨b0, hb0, hsb⟩ := mem_of_shape_eq h b hb
  have ea1 : a.active = a0.active := congrArg (fun x => x.2.1) hsa
  have eb1 : b.active = b0.active := congrArg (fun x => x.2.1) hsb
  have ea2 : a.mirror_id = a0.mirror_id := congrArg (fun x => x.2.2) hsa
  have eb2 : b.mirror_id = b0.mirror_id := congrArg (fun x => x.2.2) hsb
  have h0 : a0 = b0 := hi a0 ha0 b0 hb0 (ea1 ▸ haa) (eb1 ▸ hba)
    (ea2 ▸ hne) (by rw [← ea2, ← eb2]; exact heq)
  have hid : a.id = b.id := by
    have e3 : a.id = a0.id := congrArg Prod.fst hsa
    have e4 : b.id = b0.id := congrArg Prod.fst hsb
    rw [e3, e4, h0]
  exact List.inj_on_of_nodup_map hn ha hb hid

theorem activeIds_nodup {ms : List Element} (h : (ms.map (·.id)).Nodup) :
    (activeIds ms).Nodup := by
  unfold activeIds
  exact List.Nodup.sublist (List.Sublist.map (·.id) (List.filter_sublist ms)) h

/-- A case analysis of one averaging step. -/
theorem symStep_cases (ms : List Element) (a : ℕ) :
    symStep ms a = ms ∨
    ∃ el j twin, findId ms a = some el ∧ el.mirror_id = some j ∧
      findId ms j = some twin ∧ twin.active = true ∧
      symStep ms a =
        updEnergy (updEnergy ms a ((el.strain_energy + twin.strain_energy) / 2)) j
          ((el.strain_energy + twin.strain_energy) / 2) := by
  unfold symStep
  split
  · left; rfl
  · next el heq =>
    split
    · left; rfl
    · next j hm =>
      split
      · left; rfl
      · next twin hft =>
        split
        · next ha => right; exact ⟨el, j, twin, heq, hm, hft, ha, rfl⟩
        · left; rfl

theorem findId_symStep_untouched (ms : List Element) (a k : ℕ)
    (hcond : mirrorAt ms a = none ∨ (a ≠ k ∧ mirrorAt ms a ≠ some k)) :
    findId (symStep ms a) k = findId ms k := by
  rcases symStep_cases ms a with he | ⟨el, j, twin, hfa, hm, hft, ha, he⟩
  · rw [he]
  · have hma : mirrorAt ms a = some j := by
      unfold mirrorAt
      rw [hfa]
      simp [hm]
    rcases hcond with h | ⟨hak, hmk⟩
    · rw [hma] at h; cases h
    · have hjk : k ≠ j := fun he2 => hmk (by rw [he2]; exact hma)
      rw [he, findId_updEnergy_ne _ hjk, findId_updEnergy_ne _ (Ne.symm hak)]

theorem findId_symmetrize_untouched (ids : List ℕ) (ms base : List Element) (k : ℕ)
    (hsh : ms.map shapeOf = base.map shapeOf)
    (hcond : ∀ a ∈ ids, mirrorAt base a = none ∨ (a ≠ k ∧ mirrorAt base a ≠ some k)) :
    findId (symmetrize ms ids) k = findId ms k := by
  induction ids generalizing ms with
  | nil => rfl
  | cons a rest ih =>
    simp only [symmetrize, List.foldl_cons]
    have hstep : findId (symStep ms a) k = findId ms k := by
      refine findId_symStep_untouched ms a k ?_
      have hc := hcond a (by simp)
      rwa [← mirrorAt_of_shape hsh a] at hc
    have ih2 := ih (symStep ms a) ((symStep_shape ms a).trans hsh)
      (fun b hb => hcond b (by simp [hb]))
    simp only [symmetrize] at ih2
    rw [ih2, hstep]

theorem mem_activeIds {ms : List Element} {a : ℕ} (h : a ∈ activeIds ms) :
    ∃ el ∈ ms, el.id = a ∧ el.active = true := by
  unfold activeIds at h
  obtain ⟨el, hel, rfl⟩ := List.mem_map.mp h
  exact ⟨el, List.mem_of_mem_filter hel, rfl, List.of_mem_filter hel⟩

/-- The heart of the averaging pass: when no other active member shares the
mirror `j` of the active member `i`, the pass writes the same average into both
`i` and `j` and never touches them again, so they end with equal energies. -/
theorem symmetrize_pair_eq (ms1 : List Element)
    (hids : (ms1.map (·.id)).Nodup)
    (htgt : mirrorTargetsBlank ms1)
    (hinj : mirrorInjOnActive ms1)
    (i j : ℕ) (el twin : Element)
    (hfi : findId ms1 i = some el) (hm : el.mirror_id = some j)
    (hel_act : el.active = true)
    (hft : findId ms1 j = some twin) (hta : twin.active = true)
    (hmem : i ∈ activeIds ms1) :
    ∃ el2 twin2,
      findId (symmetrize ms1 (activeIds ms1)) i = some el2 ∧
      findId (symmetrize ms1 (activeIds ms1)) j = some twin2 ∧
      el2.strain_energy = twin2.strain_energy := by
  have htwid : twin.id = j := findId_id hft
  have helid : el.id = i := findId_id hfi
  have hmel : el ∈ ms1 := findId_mem hfi
  have hmtw : twin ∈ ms1 := findId_mem hft
  have htwm : twin.mirror_id = none :=
    htgt el hmel twin hmtw (by rw [htwid]; exact hm)
  have hij : i ≠ j := by
    intro he
    rw [he, hft] at hfi
    cases hfi
    rw [htwm] at hm
    cases hm
  -- conditions protecting key i and key j from all other steps
  have cond_i : ∀ a ∈ activeIds ms1, a ≠ i →
      mirrorAt ms1 a = none ∨ (a ≠ i ∧ mirrorAt ms1 a ≠ some i) := by
    intro a _ hai
    cases hma : mirrorAt ms1 a with
    | none => exact Or.inl rfl
    | some m =>
      refine Or.inr ⟨hai, fun he => ?_⟩
      cases he
      obtain ⟨ela, hfa, hmla⟩ := Option.bind_eq_some.mp hma
      have : el.mirror_id = none :=
        htgt ela (findId_mem hfa) el hmel (by rw [helid]; exact hmla)
      rw [this] at hm
      cases hm
  have cond_j : ∀ a ∈ activeIds ms1, a ≠ i →
      mirrorAt ms1 a = none ∨ (a ≠ j ∧ mirrorAt ms1 a ≠ some j) := by
    intro a haact hai
    cases hma : mirrorAt ms1 a with
    | none => exact Or.inl rfl
    | some m =>
      refine Or.inr ⟨?_, fun he => ?_⟩
      · intro he2
        rw [he2] at hma
        unfold mirrorAt at hma
        rw [hft] at hma
        rw [show (some twin).bind (·.mirror_id) = twin.mirror_id from rfl, htwm] at hma
        cases hma
      · cases he
        obtain ⟨ela, hfa, hmla⟩ := Option.bind_eq_some.mp hma
        obtain ⟨elb, hmb, hidb, hactb⟩ := mem_activeIds haact
        have hfb : findId ms1 elb.id = some elb := findId_of_mem_nodup hids hmb
        rw [hidb, hfa] at hfb
        cases hfb
        -- ela is active and shares mirror j with el
        have heq : ela = el := hinj ela (findId_mem hfa) el hmel hactb hel_act
          (by rw [hmla]; exact fun h => Option.noConfusion h)
          (by rw [hmla, hm])
        apply hai
        rw [← findId_id hfa, heq, helid]
  obtain ⟨L1, L2, hsplit⟩ := List.append_of_mem hmem
  have hnodA : (activeIds ms1).Nodup := activeIds_nodup hids
  have hiL1 : i ∉ L1 := by
    rw [hsplit] at hnodA
    intro hin
    exact (List.nodup_append.mp hnodA).2.2 hin (List.mem_cons_self _ _)
  have hiL2 : i ∉ L2 := by
    rw [hsplit] at hnodA
    exact (List.nodup_cons.mp (List.nodup_append.mp hnodA).2.1).1
  have hsubL1 : ∀ a ∈ L1, a ∈ activeIds ms1 := by
    intro a ha
    rw [hsplit]
    exact List.mem_append_left _ ha
  have hsubL2 : ∀ a ∈ L2, a ∈ activeIds ms1 := by
    intro a ha
    rw [hsplit]
    exact List.mem_append_right _ (List.mem_cons_of_mem _ ha)
  have hneL1 : ∀ a ∈ L1, a ≠ i := fun a ha he => hiL1 (he ▸ ha)
  have hneL2 : ∀ a ∈ L2, a ≠ i := fun a ha he => hiL2 (he ▸ ha)
  have hshL1 : (symmetrize ms1 L1).map shapeOf = ms1.map shapeOf := symmetrize_shape L1 ms1
  have hfi1 : findId (symmetrize ms1 L1) i = some el := by
    rw [findId_symmetrize_untouched L1 ms1 ms1 i rfl
      (fun a ha => cond_i a (hsubL1 a ha) (hneL1 a ha))]
    exact hfi
  have hft1 : findId (symmetrize ms1 L1) j = some twin := by
    rw [findId_symmetrize_untouched L1 ms1 ms1 j rfl
      (fun a ha => cond_j a (hsubL1 a ha) (hneL1 a ha))]
    exact hft
  have hstep : symStep (symmetrize ms1 L1) i =
      updEnergy (updEnergy (symmetrize ms1 L1) i
        ((el.strain_energy + twin.strain_energy) / 2)) j
        ((el.strain_energy + twin.strain_energy) / 2) := by
    simp only [symStep, hfi1, hm, hft1, hta, if_true]
  have hshStep : (symStep (symmetrize ms1 L1) i).map shapeOf = ms1.map shapeOf :=
    (symStep_shape _ _).trans hshL1
  have hrewrite : symmetrize ms1 (activeIds ms1) =
      symmetrize (symStep (symmetrize ms1 L1) i) L2 := by
    rw [hsplit]
    simp [symmetrize, List.foldl_append]
  have hfin_i : findId (symmetrize ms1 (activeIds ms1)) i =
      some { el with strain_energy := (el.strain_energy + twin.strain_energy) / 2 } := by
    rw [hrewrite]
    rw [findId_symmetrize_untouched L2 _ ms1 i hshStep
      (fun a ha => cond_i a (hsubL2 a ha) (hneL2 a ha))]
    rw [hstep, findId_updEnergy_ne _ hij, findId_updEnergy_self, hfi1]
    rfl
  have hfin_j : findId (symmetrize ms1 (activeIds ms1)) j =
      some { twin with strain_energy := (el.strain_energy + twin.strain_energy) / 2 } := by
    rw [hrewrite]
    rw [findId_symmetrize_untouched L2 _ ms1 j hshStep
      (fun a ha => cond_j a (hsubL2 a ha) (hneL2 a ha))]
    rw [hstep, findId_updEnergy_self, findId_updEnergy_ne _ (Ne.symm hij), hft1]
    rfl
  exact ⟨_, _, hfin_i, hfin_j, rfl⟩

/-- Claim C5 (amended): when no two active members share a mirror reference —
and mirror targets carry no mirror of their own, as the one-directional mapping
of `initialize_structure` guarantees — the averaging pass leaves every active
member with an active mirror at exactly the mirror's strain energy. -/
theorem c5_amended (results : ℕ → ElemRes) (ms : List Element)
    (hids : (ms.map (·.id)).Nodup)
    (htgt : mirrorTargetsBlank ms)
    (hinj : mirrorInjOnActive ms) :
    symPairsEqual (post_sym results ms) = true := by
  have hsh : (eval_energy results ms).map shapeOf = ms.map shapeOf :=
    eval_energy_shape results ms
  have hids1 : ((eval_energy results ms).map (·.id)).Nodup := by
    rw [ids_of_shape hsh]; exact hids
  have htgt1 : mirrorTargetsBlank (eval_energy results ms) :=
    mirrorTargetsBlank_of_shape hsh htgt
  have hinj1 : mirrorInjOnActive (eval_energy results ms) :=
    mirrorInjOnActive_of_shape hsh hids1 hinj
  have hrw : post_sym results ms =
      symmetrize (eval_energy results ms) (activeIds (eval_energy results ms)) := by
    rw [post_sym, activeIds_of_shape hsh]
  rw [hrw]
  set ms1 := eval_energy results ms
  set out := symmetrize ms1 (activeIds ms1) with hout
  have hshOut : out.map shapeOf = ms1.map shapeOf := symmetrize_shape _ _
  have hidsOut : (out.map (·.id)).Nodup := by rw [ids_of_shape hshOut]; exact hids1
  rw [symPairsEqual, List.all_eq_true]
  intro el2 hel2
  by_cases hact2 : el2.active = true
  · cases hmir : el2.mirror_id with
    | none => simp [hact2, hmir]
    | some j =>
      cases hfj : findId out j with
      | none => simp [hact2, hmir, hfj]
      | some tw2 =>
        by_cases htw2 : tw2.active = true
        · have hiact : el2.id ∈ activeIds out := by
            unfold activeIds
            exact List.mem_map_of_mem _ (List.mem_filter.mpr ⟨hel2, hact2⟩)
          have hiact1 : el2.id ∈ activeIds ms1 := by
            rw [← activeIds_of_shape hshOut]
            exact hiact
          have hfi_out : findId out el2.id = some el2 :=
            findId_of_mem_nodup hidsOut hel2
          have hsh_i := findId_shape hshOut el2.id
          rw [hfi_out] at hsh_i
          cases hfi1 : findId ms1 el2.id with
          | none => rw [hfi1] at hsh_i; cases hsh_i
          | some el =>
            rw [hfi1, Option.map_some', Option.map_some', Option.some.injEq] at hsh_i
            have hm1 : el.mirror_id = some j := by
              have h5 : el2.mirror_id = el.mirror_id := congrArg (fun x => x.2.2) hsh_i
              rw [← h5]
              exact hmir
            have hela : el.active = true := by
              have h5 : el2.active = el.active := congrArg (fun x => x.2.1) hsh_i
              rw [← h5]
              exact hact2
            have hsh_j := findId_shape hshOut j
            rw [hfj] at hsh_j
            cases hft1 : findId ms1 j with
            | none => rw [hft1] at hsh_j; cases hsh_j
            | some twin =>
              rw [hft1, Option.map_some', Option.map_some', Option.some.injEq] at hsh_j
              have htwa : twin.active = true := by
                have h5 : tw2.active = twin.active := congrArg (fun x => x.2.1) hsh_j
                rw [← h5]
                exact htw2
              obtain ⟨el3, tw3, hf3, hf4, he34⟩ := symmetrize_pair_eq ms1 hids1 htgt1
                hinj1 el2.id j el twin hfi1 hm1 hela hft1 htwa hiact1
              rw [← hout] at hf3 hf4
              rw [hfi_out] at hf3
              rw [hfj] at hf4
              cases hf3
              cases hf4
              simp [hact2, hmir, hfj, htw2, he34]
        · simp [hact2, hmir, hfj, htw2]
  · simp [hact2]

/-- Witness for C5's amended statement: a clean two-member mirror pair ends the
pass with equal energies. -/
theorem c5_witness :
    (ms2w.map (·.id)).Nodup ∧ mirrorTargetsBlank ms2w ∧ mirrorInjOnActive ms2w ∧
    symPairsEqual (post_sym r2w ms2w) = true :=
  ⟨by decide, by decide, by decide,
   c5_amended r2w ms2w (by decide) (by decide) (by decide)⟩

/-- Claim C5 counterexample: with two members sharing the same mirror — the
shape crossing cell diagonals actually produce, see
`shared_mirror_in_default_mesh` — the sequential averaging breaks the first
pair's equality: member 1 ends at energy 8 while its still-active mirror 3 ends
at energy 6, so the claimed exact equality fails. -/
theorem c5_counterexample :
    (ms5.map (·.id)).Nodup ∧ mirrorTargetsBlank ms5 ∧
    (findId (post_sym r5 ms5) 1).map (·.strain_energy) = some 8 ∧
    (findId (post_sym r5 ms5) 1).map (·.mirror_id) = some (some 3) ∧
    (findId (post_sym r5 ms5) 1).map (·.active) = some true ∧
    (findId (post_sym r5 ms5) 3).map (·.strain_energy) = some 6 ∧
    (findId (post_sym r5 ms5) 3).map (·.active) = some true ∧
    symPairsEqual (post_sym r5 ms5) = false :=
  ⟨by decide, by decide, by decide, by decide, by decide, by decide, by decide,
   by decide⟩

/-- Two distinct members of the default 16×5 mesh — the crossing diagonals of the
first cell, ids 3 and 5 — are assigned one and the same mirror, member 94: the
shared-mirror shape of `c5_counterexample` occurs in structures the backend
actually builds. -/
theorem shared_mirror_in_default_mesh :
    ((initialize_structure 16 5).find? (fun e => e.id == 3)).map (·.mirror_id) =
      some (some 94) ∧
    ((initialize_structure 16 5).find? (fun e => e.id == 5)).map (·.mirror_id) =
      some (some 94) :=
  ⟨by decide, by decide⟩

end KGP
